import Mathlib

/-!
# Verification of the semantic segmentation and strategy optimization core

Shallow embedding of the segmentation / quality-evaluation / strategy-selection
code of the meeting-minutes optimizer (scripts/semantic_splitter.py,
scripts/segment_quality_eval.py, scripts/iterative_optimizer.py,
scripts/semantic_meeting_processor.py), together with theorems that settle the
spec claims about it.

Texts are modelled as `List Char`; character indices, as in Python, count
code points.  Scores are modelled as `ℚ` (no comparison in the claims is
close enough to the binary64 rounding error for a verdict to differ).
Calls to the external judge are modelled by a stream of response strings
consumed one per call — an exhausted stream yields `""`, the value
`_call_ollama` returns when the backend fails.  `json.loads` is an explicit
parameter `loads : String → Option Json` (`none` = the parse raised);
theorems quantify over `loads`, so they hold for every JSON-parser behaviour.
-/

namespace MeetingOpt

/-- Python whitespace characters for `str.strip` and regex `\s` (the texts in
the scenarios use only space and newline; the ASCII whitespace set is
included for fidelity). -/
def isWS (c : Char) : Bool :=
  c = ' ' ∨ c = '\n' ∨ c = '\t' ∨ c = '\r' ∨ c = '\x0b' ∨ c = '\x0c'

/-- Python slice `text[a:b]` for `0 ≤ a ≤ b` (both clamped to the length). -/
def sliceL (text : List Char) (a b : ℕ) : List Char :=
  (text.drop a).take (b - a)

/-- Python `str.strip()`: drop leading whitespace. -/
def dropLeadWS (l : List Char) : List Char := l.dropWhile isWS

/-- Python `str.strip()`: drop trailing whitespace. -/
def dropTrailWS (l : List Char) : List Char :=
  (l.reverse.dropWhile isWS).reverse

/-- Python `str.strip()`. -/
def stripL (l : List Char) : List Char := dropTrailWS (dropLeadWS l)

/-!
## JSON values and extraction

All judge call sites extract JSON with `re.search(r'\{.*\}', response,
re.DOTALL)` (greedy: from the first `{` to the last `}`) and then
`json.loads`.  Parsed JSON values are modelled by `Json`; numbers are `ℚ`
(ints and floats of Python are not distinguished except where noted).
-/

inductive Json where
  | num (q : ℚ)
  | str (s : String)
  | bool (b : Bool)
  | null
  | arr (l : List Json)
  | obj (fields : List (String × Json))
deriving Repr

/-- Python `dict.get(key)`: first binding wins (`json.loads` keeps the last binding
of a duplicate key, but no input below has duplicate keys). -/
def jget (fields : List (String × Json)) (key : String) : Option Json :=
  (fields.find? (fun f => f.1 = key)).map (·.2)

/-- Index of the first occurrence of `c`. -/
def firstIdx (l : List Char) (c : Char) : Option ℕ := l.indexOf? c

/-- Index of the last occurrence of `c`. -/
def lastIdx (l : List Char) (c : Char) : Option ℕ :=
  (l.reverse.indexOf? c).map (fun i => l.length - 1 - i)

/-- Embeds `re.search(r'\{.*\}', response, re.DOTALL)`: the span from the first `{`
to the last `}`, when the latter comes strictly later. -/
def jsonExtract (resp : String) : Option String :=
  match firstIdx resp.data '{', lastIdx resp.data '}' with
  | some i, some j => if i < j then some ⟨sliceL resp.data i (j + 1)⟩ else none
  | _, _ => none

/-- Numeric value of a JSON field for use in Python arithmetic/comparisons:
absent → the default, number → itself, `true`/`false` → 1/0 (Python bools
are ints); any other type raises a `TypeError` at the call site, which the
surrounding `except` turns into `none` here. -/
def jratD (fields : List (String × Json)) (key : String) (d : ℚ) : Option ℚ :=
  match jget fields key with
  | none => some d
  | some (Json.num q) => some q
  | some (Json.bool b) => some (if b then 1 else 0)
  | some _ => none

/-!
## `SemanticSplitter` (scripts/semantic_splitter.py)
-/

/-- The default quality analysis `_analyze_segment_coherence` returns when
the judge response contains no parsable JSON. -/
def defaultAnalysis : Json :=
  Json.obj
    [ ("semantic_completeness", Json.num 7), ("topic_consistency", Json.num 7),
      ("logical_coherence", Json.num 7), ("information_completeness", Json.num 7),
      ("overall_score", Json.num 7), ("issues", Json.arr []),
      ("suggestions", Json.arr []) ]

/-- Embeds `SemanticSplitter._analyze_segment_coherence`, as a function of the judge
response: the parsed JSON object when one parses, the fixed default
otherwise.  (The prompt sent to the judge does not constrain the response,
which is an arbitrary input here.) -/
def analyzeSegmentCoherence (loads : String → Option Json) (resp : String) : Json :=
  match jsonExtract resp with
  | none => defaultAnalysis
  | some span =>
    match loads span with
    | some j => j
    | none => defaultAnalysis

/-- Embeds `SemanticSplitter._optimize_segment_boundary`, as a function of the judge
response.  `len` is `len(text)`; the ±200-character context slice only feeds
the prompt and does not influence the result, so the text itself is not
needed.  A response accepted with confidence `> 0.7` but with non-integral
offsets would make the Python caller raise a `TypeError` when slicing; no
result below exercises that case (the `.floor` is only there to type-check
it). -/
def optimizeBoundary (loads : String → Option Json) (len startPos endPos : ℕ)
    (resp : String) : ℕ × ℕ :=
  let contextStart := startPos - 200
  match jsonExtract resp with
  | none => (startPos, endPos)
  | some span =>
    match loads span with
    | none => (startPos, endPos)
    | some (Json.obj fields) =>
      match jratD fields "optimized_start" ((startPos - contextStart : ℕ)),
            jratD fields "optimized_end" ((endPos - contextStart : ℕ)),
            jratD fields "confidence" 0 with
      | some os, some oe, some conf =>
        let ns : ℚ := max 0 (min (contextStart + os) len)
        let ne : ℚ := max (ns + 100) (min (contextStart + oe) len)
        if 7/10 < conf then (ns.floor.toNat, ne.floor.toNat) else (startPos, endPos)
      | _, _, _ => (startPos, endPos)
    | some _ => (startPos, endPos)

/-!
### Breakpoint patterns (`_find_natural_breakpoints`)

The source searches, in priority order, for the regexes
`\n\n`, `。\s*\n`, `。\s+`, `！\s*\n`, `？\s*\n`, `，\s*\n`.
Each is the two-character literal `\n\n`, or a punctuation character followed
by `\s*\n` (greedy whitespace run whose last consumed character must be a
newline) or by `\s+` (maximal nonempty whitespace run).
-/

inductive Pat where
  | doubleNewline
  | punctWsNewline (c : Char)
  | punctWsPlus (c : Char)
deriving DecidableEq, Repr

/-- The six patterns in the priority order of the source. -/
def splitterPatterns : List Pat :=
  [ Pat.doubleNewline,
    Pat.punctWsNewline '。', Pat.punctWsPlus '。',
    Pat.punctWsNewline '！', Pat.punctWsNewline '？', Pat.punctWsNewline '，' ]

/-- Length of the prefix of `l` matched by `\s*\n` (greedy with
backtracking): the longest whitespace prefix ending in `\n`. -/
def lastNLinRun : List Char → Option ℕ
  | [] => none
  | c :: rest =>
    if isWS c then
      match lastNLinRun rest with
      | some k => some (k + 1)
      | none => if c = '\n' then some 1 else none
    else none

/-- Length of the leading whitespace run. -/
def wsRunLen (l : List Char) : ℕ := (l.takeWhile isWS).length

/-- Try to match pattern `p` at the head of `l`; returns the match length. -/
def tryMatch (p : Pat) (l : List Char) : Option ℕ :=
  match p, l with
  | Pat.doubleNewline, c1 :: c2 :: _ =>
    if c1 = '\n' ∧ c2 = '\n' then some 2 else none
  | Pat.punctWsNewline c, d :: rest =>
    if d = c then (lastNLinRun rest).map (· + 1) else none
  | Pat.punctWsPlus c, d :: rest =>
    if d = c then (if wsRunLen rest = 0 then none else some (wsRunLen rest + 1))
    else none
  | _, _ => none

/-- Embeds `re.finditer` over a window, returning match END offsets (`pos` plus the
offset in the scanned suffix), non-overlapping, left to right.  `fuel`
bounds the scan; the window length suffices. -/
def finditerEnds (p : Pat) : ℕ → List Char → ℕ → List ℕ
  | 0, _, _ => []
  | _, [], _ => []
  | fuel + 1, c :: rest, pos =>
    match tryMatch p (c :: rest) with
    | some k => (pos + k) :: finditerEnds p fuel (List.drop (k - 1) rest) (pos + k)
    | none => finditerEnds p fuel rest (pos + 1)

/-- Match-end list of the first pattern (in priority order) that has any
match in the window; `none` when no pattern matches.  Mirrors the
`for pattern in patterns: ... break` loop. -/
def firstPatternEnds (window : List Char) : Option (List ℕ) :=
  (splitterPatterns.map
    (fun p => finditerEnds p window.length window 0)).find? (· ≠ [])

/-- One iteration of `_find_natural_breakpoints`: the breakpoint chosen for
the window starting at `cur` with window end `endPos` (the rightmost match
of the first matching pattern that lies past `cur + 500`, else `endPos`). -/
def bestBreakpoint (text : List Char) (target cur endPos : ℕ) : ℕ :=
  let searchStart := max (cur + target - 500) cur
  let window := sliceL text searchStart (endPos + 200)
  match firstPatternEnds window with
  | none => endPos
  | some ends =>
    match ends.reverse.find? (fun e => cur + 500 < searchStart + e) with
    | some e => searchStart + e
    | none => endPos

/-- The `while current_pos < len(text)` loop of `_find_natural_breakpoints`,
with explicit fuel (`len + 1` suffices when `target ≥ 1`; the Python loop
diverges for `target = 0`).  `len` is `text.length`, precomputed as Python's
O(1) `len`. -/
def breakpointsLoop (text : List Char) (len target : ℕ) : ℕ → ℕ → List ℕ
  | 0, _ => []
  | fuel + 1, cur =>
    if cur < len then
      if len ≤ cur + target then [len]
      else
        let b := bestBreakpoint text target cur (cur + target)
        b :: breakpointsLoop text len target fuel b
    else []

/-- Embeds `SemanticSplitter._find_natural_breakpoints`. -/
def findNaturalBreakpoints (text : List Char) (target : ℕ) : List ℕ :=
  breakpointsLoop text text.length target (text.length + 1) 0

/-- One entry of the list `SemanticSplitter.split_text` returns. -/
structure SegmentInfo where
  segmentId : ℕ
  segmentText : List Char
  analysis : Json
  startPos : ℕ
  endPos : ℕ
  length : ℕ
  isOptimized : Bool
deriving Repr

/-- Judge-response stream: one response per `_call_ollama`; an exhausted
stream yields `""` (a failed backend call). -/
def popResp : List String → String × List String
  | [] => ("", [])
  | r :: rs => (r, rs)

/-- The `for i, end_pos in enumerate(breakpoints)` loop of `split_text`:
`prev` is the previous breakpoint (`none` for `i = 0`), `count` the number
of segments kept so far.  Whitespace-only slices are skipped before the
coherence analysis.  Returns the segments together with the unconsumed
judge-response stream. -/
def segmentsLoop (loads : String → Option Json) (text : List Char)
    (len overlap : ℕ) (enableAI : Bool) :
    List ℕ → Option ℕ → List String → ℕ → List SegmentInfo × List String
  | [], _, resps, _ => ([], resps)
  | bp :: rest, prev, resps, count =>
    let s0 : ℕ := match prev with | none => 0 | some p => p - overlap
    let step : (ℕ × ℕ) × Bool × List String :=
      if enableAI ∧ prev.isSome then
        let pr := popResp resps
        let oe := optimizeBoundary loads len s0 bp pr.1
        (oe, decide (oe ≠ (s0, bp)), pr.2)
      else ((s0, bp), false, resps)
    let segText := stripL (sliceL text step.1.1 step.1.2)
    if segText = [] then
      segmentsLoop loads text len overlap enableAI rest (some bp) step.2.2 count
    else
      let pr2 := popResp step.2.2
      let out := segmentsLoop loads text len overlap enableAI rest (some bp) pr2.2 (count + 1)
      ({ segmentId := count + 1, segmentText := segText,
         analysis := analyzeSegmentCoherence loads pr2.1,
         startPos := step.1.1, endPos := step.1.2,
         length := segText.length, isOptimized := step.2.1 } :: out.1, out.2)

/-- Embeds `SemanticSplitter.split_text`.  A text within `maxLen` yields a single
segment carrying the whole (unstripped) text — after one coherence-analysis
judge call.  Returns the segments and the unconsumed response stream. -/
def splitText (loads : String → Option Json) (maxLen overlap : ℕ)
    (text : List Char) (enableAI : Bool) (resps : List String) :
    List SegmentInfo × List String :=
  let len := text.length
  if len ≤ maxLen then
    let pr := popResp resps
    ([{ segmentId := 1, segmentText := text,
        analysis := analyzeSegmentCoherence loads pr.1,
        startPos := 0, endPos := len, length := len, isOptimized := false }], pr.2)
  else
    segmentsLoop loads text len overlap enableAI
      (findNaturalBreakpoints text maxLen) none resps 0

/-- The segment's content range inside the original text: the pre-strip
slice bounds of the segment, corrected for the whitespace `str.strip()`
removed at either end.  The segment's text occupies exactly the positions
`contentBounds.1 ≤ p < contentBounds.2` of the original text. -/
def contentBounds (text : List Char) (s : SegmentInfo) : ℕ × ℕ :=
  let slice := sliceL text s.startPos s.endPos
  (s.startPos + (slice.takeWhile isWS).length,
   s.endPos - (slice.reverse.takeWhile isWS).length)

/-!
## `SegmentQualityEvaluator` (scripts/segment_quality_eval.py)

Only the parts of `evaluate_segments` that determine `overall_quality.score`
(and the judge-stream accounting) are embedded.  `statistics.stdev` takes a
real square root, which is modelled by an explicit parameter
`sqrtQ : ℚ → ℚ`; every theorem below either fixes the inputs so that the
variance is `0` (where `sqrt 0 = 0`) or only uses `0 ≤ sqrtQ _`.
-/

/-- Mean of a list of rationals (callers guard against `[]`). -/
def listMeanQ (l : List ℚ) : ℚ := l.sum / l.length

/-- Python `statistics.variance` (sample variance, denominator `n - 1`). -/
def sampleVar (l : List ℚ) : ℚ :=
  (l.map (fun x => (x - listMeanQ l) ^ 2)).sum / ((l.length : ℚ) - 1)

/-- Numeric `dict.get(key, d)` for use in Python comparisons/arithmetic:
number → itself, `true`/`false` → 1/0, absent → `d`.  A value of any other
type makes the Python call site raise an uncaught `TypeError`; no theorem
exercises that case and it is mapped to the default. -/
def jnumD (fields : List (String × Json)) (key : String) (d : ℚ) : ℚ :=
  match jget fields key with
  | some (Json.num q) => q
  | some (Json.bool b) => if b then 1 else 0
  | _ => d

/-- One quality issue of `detect_quality_issues` (only the fields the score
depends on). -/
structure Issue where
  segId : ℕ
  itype : String
  severity : String
deriving Repr, DecidableEq

/-- Embeds `detect_quality_issues` for one segment, in the check order of the
source: semantic completeness, length, topic consistency, boundary
punctuation.  An analysis equal to the empty dict (Python falsy) skips all
checks; a non-dict analysis would raise in Python and is not exercised. -/
def segmentIssues (s : SegmentInfo) : List Issue :=
  match s.analysis with
  | Json.obj [] => []
  | Json.obj fields =>
    let sem := jnumD fields "semantic_completeness" 5
    let topic := jnumD fields "topic_consistency" 5
    (if sem < 11/2 then
      [⟨s.segmentId, "語意不完整", if sem < 3 then "high" else "medium"⟩] else [])
    ++ (if s.length < 100 then [⟨s.segmentId, "段落過短", "medium"⟩]
        else if 6000 < s.length then [⟨s.segmentId, "段落過長", "medium"⟩] else [])
    ++ (if topic < 11/2 then
        [⟨s.segmentId, "主題不一致", if topic < 3 then "medium" else "low"⟩] else [])
    ++ (if (s.segmentText.head?.elim false (fun c => c ∈ ['，', '。', '、', '；', '：']))
          ∨ (s.segmentText.getLast?.elim false (fun c => c ∈ ['，', '、', '；', '：'])) then
        [⟨s.segmentId, "分段邊界問題", "low"⟩] else [])
  | _ => []

/-- Embeds `SegmentQualityEvaluator.detect_quality_issues`. -/
def detectQualityIssues (segments : List SegmentInfo) : List Issue :=
  (segments.map segmentIssues).flatten

/-- The boundary-naturalness judge calls of `evaluate_segment_boundaries`:
one call per adjacent pair; `boundary_score` defaults to 7.0 when the
response has no parsable JSON or lacks the key. -/
def boundaryLoop (loads : String → Option Json) :
    ℕ → List String → List ℚ × List String
  | 0, resps => ([], resps)
  | k + 1, resps =>
    let pr := popResp resps
    let score : ℚ :=
      match jsonExtract pr.1 with
      | none => 7
      | some span =>
        match loads span with
        | some (Json.obj f) => jnumD f "boundary_score" 7
        | _ => 7
    let out := boundaryLoop loads k pr.2
    (score :: out.1, out.2)

/-- The coverage judge call of `evaluate_content_coverage`:
`overall_coverage` defaults to 8.0. -/
def coverageScore (loads : String → Option Json) (resp : String) : ℚ :=
  match jsonExtract resp with
  | none => 8
  | some span =>
    match loads span with
    | some (Json.obj f) => jnumD f "overall_coverage" 8
    | _ => 8

/-- First-occurrence deduplication (Python dict-key insertion order). -/
def dedupFirstAux {α : Type} [DecidableEq α] (seen : List α) : List α → List α
  | [] => []
  | i :: rest =>
    if i ∈ seen then dedupFirstAux seen rest
    else i :: dedupFirstAux (i :: seen) rest

/-- Embeds `generate_improvement_suggestions`, which consumes one judge response per
segment that has issues and exists in the segment list; its output is
advisory and does not enter the score. -/
def suggestionCalls (segments : List SegmentInfo) (issues : List Issue)
    (resps : List String) : List String :=
  (dedupFirstAux [] (issues.map (·.segId))).foldl
    (fun rs i => if segments.any (fun s => s.segmentId = i) then (popResp rs).2 else rs)
    resps

/-- Embeds `SegmentQualityEvaluator.evaluate_segments`, reduced to the
`overall_quality.score` it reports and the judge responses it consumes.
Components enter `quality_components` in source order (individual segment
scores when any, boundary, balance, coverage when the original text is
supplied).  The weights dict is built exactly as in the source — and, as in
the source, `overall_score` is `sum(quality_components) /
len(quality_components)`: the weights only decide the `total_weight > 0`
branch.  The penalty is `min(2.0, 0.2 · #issues)` and the result is clamped
below at 0 (the source has no upper clamp). -/
def evaluateSegmentsScore (loads : String → Option Json) (sqrtQ : ℚ → ℚ)
    (segments : List SegmentInfo) (hasOriginal : Bool) (resps : List String) :
    ℚ × List String :=
  let segScores := segments.filterMap (fun s =>
    match s.analysis with
    | Json.obj fields =>
      match jget fields "overall_score" with
      | some (Json.num q) => some q
      | some (Json.bool b) => some (if b then 1 else 0)
      | _ => none
    | _ => none)
  let bOut := boundaryLoop loads (segments.length - 1) resps
  let avgBoundary : ℚ := if bOut.1 = [] then 10 else listMeanQ bOut.1
  let lengths : List ℚ := segments.map (fun s => (s.length : ℚ))
  let balance : ℚ :=
    if lengths = [] then 0
    else
      let μ := listMeanQ lengths
      let std := if 1 < lengths.length then sqrtQ (sampleVar lengths) else 0
      let cv := if 0 < μ then std / μ else 0
      max 0 (10 - cv * 20)
  let cOut : ℚ × List String :=
    if hasOriginal then
      let pr := popResp bOut.2
      (coverageScore loads pr.1, pr.2)
    else (0, bOut.2)
  let issues := detectQualityIssues segments
  let restResps := suggestionCalls segments issues cOut.2
  let comps : List ℚ :=
    (if segScores = [] then [] else [listMeanQ segScores])
      ++ [avgBoundary, balance] ++ (if hasOriginal then [cOut.1] else [])
  let totalWeight : ℚ :=
    (if segScores = [] then 0 else 2/5) + 3/10 + 1/5 + (if hasOriginal then 1/10 else 0)
  let overall : ℚ := if 0 < totalWeight then listMeanQ comps else 7
  let penalty : ℚ := min 2 ((issues.length : ℚ) * (1/5))
  (max 0 (overall - penalty), restResps)

/-!
## `SemanticMeetingProcessor.process_transcript`
(scripts/semantic_meeting_processor.py)

Step 1 runs `split_text` with AI optimization enabled; step 2 (quality
checking enabled) evaluates the segments against the original text; the
below-threshold branch only logs a warning (the source comments that
re-segmentation is "not implemented, continue directly"), and steps 3–4
generate from the very same `segments` list in either case.
-/

/-- The segmentation-relevant core of `process_transcript`: the segments
step 3 generates from, and the quality score the gate compared with the
threshold. -/
def processTranscriptCore (loads : String → Option Json) (sqrtQ : ℚ → ℚ)
    (maxLen overlap : ℕ) (qualityThreshold : ℚ) (text : List Char)
    (resps : List String) : List SegmentInfo × ℚ :=
  let sOut := splitText loads maxLen overlap text true resps
  let eOut := evaluateSegmentsScore loads sqrtQ sOut.1 true sOut.2
  let used := if eOut.1 < qualityThreshold then sOut.1 else sOut.1
  (used, eOut.1)

/-!
## `MeetingOptimizer` (scripts/iterative_optimizer.py)

The strategy catalog (`config/improvement_strategies.json`, loaded at
startup) is an input here: an ordered association list of strategy id to
`{dimension, conflict_with}`, mirroring the Python dict.
-/

/-- The fields of one catalog entry that the selector reads
(`strategy_data.get('dimension', '')` and
`strategy_data.get('conflict_with', [])`). -/
structure StrategyData where
  dimension : String
  conflictWith : List String
deriving Repr, DecidableEq

abbrev Catalog := List (String × StrategyData)

/-- Embeds `self.strategies.get(sid, \x7b\x7d).get('conflict_with', [])`. -/
def conflictsOf (catalog : Catalog) (sid : String) : List String :=
  ((catalog.find? (fun e => e.1 = sid)).map (·.2.conflictWith)).getD []

/-- Embeds `MeetingOptimizer._has_conflict`. -/
def hasConflict (catalog : Catalog) (sid : String) (selected : List String) : Bool :=
  selected.any (fun s => s ∈ conflictsOf catalog sid)

/-- Embeds `MeetingOptimizer._has_strategy_conflicts` (an id missing from the
catalog counts as conflicting). -/
def hasStrategyConflicts (catalog : Catalog) (sid : String)
    (existing : List String) : Bool :=
  if (catalog.find? (fun e => e.1 = sid)).isNone then true
  else existing.any (fun s => s ∈ conflictsOf catalog sid)

/-- Embeds `MeetingOptimizer._get_strategy_dimension`: dimension from the id
prefix. -/
def getStrategyDimension (sid : String) : Option String :=
  if sid.startsWith "A_" then some "角色"
  else if sid.startsWith "B_" then some "結構"
  else if sid.startsWith "C_" then some "內容"
  else if sid.startsWith "D_" then some "格式"
  else if sid.startsWith "E_" then some "語言"
  else if sid.startsWith "F_" then some "品質"
  else none

/-- Embeds `MeetingOptimizer._get_dimension_strategies`: catalog entries whose
`dimension` field (or, when that is empty, id-prefix dimension) matches. -/
def getDimensionStrategies (catalog : Catalog) (dim : Option String) : List String :=
  match dim with
  | none => []
  | some d =>
    catalog.filterMap (fun e =>
      let sd := if e.2.dimension ≠ "" then some e.2.dimension else getStrategyDimension e.1
      if sd = some d then some e.1 else none)

/-- One pool of `_get_strategy_pools_by_dimension`: ids whose `dimension`
field equals the given Chinese dimension name, in catalog order. -/
def poolOf (catalog : Catalog) (dim : String) : List String :=
  catalog.filterMap (fun e => if e.2.dimension = dim then some e.1 else none)

/-- The six dimensions in the `dimension_order` of
`_select_compatible_strategies` (role, structure, content, format,
language, quality). -/
def dimKeys : List String := ["角色", "結構", "內容", "格式", "語言", "品質"]

/-- The `for dim in dimension_order` loop of
`_select_compatible_strategies`: one candidate per dimension, indexed by
`iteration % len(pool)`, skipped when it conflicts with an
already-selected strategy, stopping at `maxCount`. -/
def selectCompatibleAux (catalog : Catalog) (iteration maxCount : ℕ) :
    List String → List String → List String
  | [], sel => sel
  | dim :: dims, sel =>
    if maxCount ≤ sel.length then sel
    else
      let pool := poolOf catalog dim
      if pool = [] then selectCompatibleAux catalog iteration maxCount dims sel
      else
        let chosen := pool.getD (iteration % pool.length) ""
        if hasConflict catalog chosen sel then
          selectCompatibleAux catalog iteration maxCount dims sel
        else selectCompatibleAux catalog iteration maxCount dims (sel ++ [chosen])

/-- Embeds `MeetingOptimizer._select_compatible_strategies`. -/
def selectCompatibleStrategies (catalog : Catalog) (iteration maxCount : ℕ) :
    List String :=
  selectCompatibleAux catalog iteration maxCount dimKeys []

/-- The slice of an `OptimizationResult` the selector and the convergence
monitor read: the strategy combination and `scores.get('overall_score', 0)`. -/
structure IterResult where
  combo : List String
  overall : ℚ
deriving Repr

/-- Python `max(history, key=...)`: the first element with the maximal
overall score. -/
def bestResult (h : IterResult) (t : List IterResult) : IterResult :=
  t.foldl (fun best r => if best.overall < r.overall then r else best) h

/-- The fixed baseline combination of round 0 (also the padding pool). -/
def baseline3 : List String :=
  ["A_role_definition_A1", "B_structure_B1", "C_summary_C1"]

/-- Embeds `MeetingOptimizer._try_replace_weaker_strategy`: replace the first
same-dimension (by id prefix) strategy with the new one. -/
def tryReplaceWeaker (new : String) (cur : List String) :
    Option String × List String :=
  match getStrategyDimension new with
  | none => (none, cur)
  | some nd =>
    match cur.find? (fun s => getStrategyDimension s = some nd) with
    | none => (none, cur)
    | some old => (some old, cur.set (cur.indexOf old) new)

/-- Embeds `MeetingOptimizer._try_intelligent_strategy_replacement`: same-dimension
replacement first; then dimension-balance replacement (first dimension with
the maximal multiplicity `> 1`, other than the new strategy's, first
strategy of that dimension); then, when the history has at least two
entries, replacement of the first strategy outside the protected dimensions
(角色/結構, an id with no prefix dimension counts as unprotected). -/
def tryIntelligentReplacement (new : String) (cur : List String)
    (histLen : ℕ) : Option String × List String :=
  let first := tryReplaceWeaker new cur
  if first.1.isSome then first
  else
    match getStrategyDimension new with
    | none => (none, cur)
    | some nd =>
      let curDims := cur.filterMap getStrategyDimension
      let dims := dedupFirstAux [] curDims
      let maxCnt := (dims.map (fun d => curDims.count d)).foldl max 0
      let balanced : Option (String × List String) :=
        if 1 < maxCnt then
          match dims.find? (fun d => curDims.count d = maxCnt ∧ d ≠ nd) with
          | some d =>
            match cur.find? (fun s => getStrategyDimension s = some d) with
            | some old => some (old, cur.set (cur.indexOf old) new)
            | none => none
          | none => none
        else none
      match balanced with
      | some (old, cur') => (some old, cur')
      | none =>
        if 2 ≤ histLen then
          match cur.find? (fun s =>
              ¬ (getStrategyDimension s = some "角色"
                  ∨ getStrategyDimension s = some "結構")) with
          | some old => (some old, cur.set (cur.indexOf old) new)
          | none => (none, cur)
        else (none, cur)

/-- The `strategy_adjustments` object of a structured suggestion; `Option`
fields model the presence of the `remove_strategies` / `add_strategies`
keys. -/
structure Adjustments where
  removeStrategies : Option (List String)
  addStrategies : Option (List String)
deriving Repr, DecidableEq

/-- One add step of `_apply_improvement_suggestions`: skip members, skip
conflicts (one-directional check of the new strategy's conflict set against
current members), append under capacity, else attempt intelligent
replacement. -/
def addOne (catalog : Catalog) (maxCount histLen : ℕ) (base : List String)
    (a : String) : List String :=
  if a ∈ base then base
  else if hasStrategyConflicts catalog a base then base
  else if base.length < maxCount then base ++ [a]
  else (tryIntelligentReplacement a base histLen).2

/-- The final size normalization of `_apply_improvement_suggestions`:
truncate above `maxCount`; below 2, pad from the baseline pool while under
`maxCount`. -/
def normalizeCombo (maxCount : ℕ) (base : List String) : List String :=
  if maxCount < base.length then base.take maxCount
  else if base.length < 2 then
    baseline3.foldl (fun b s => if s ∉ b ∧ b.length < maxCount then b ++ [s] else b) base
  else base

/-- Body of `MeetingOptimizer._fallback_strategy_selection`, parameterized by
the iteration index (the inline fallback of `_select_strategy_combination`
uses the round index, `_fallback_strategy_selection` itself uses
`len(history)`). -/
def fallbackCore (catalog : Catalog) (maxCount iteration : ℕ) :
    List IterResult → List String
  | [] => (catalog.map (·.1)).take maxCount
  | h :: t =>
    if iteration < 3 then
      (selectCompatibleStrategies catalog iteration maxCount).take maxCount
    else
      let base := (bestResult h t).combo
      if base = [] then base
      else
        let idx := iteration % base.length
        let dim := getStrategyDimension (base.getD idx "")
        let alts := getDimensionStrategies catalog dim
        if alts = [] then base
        else
          let alt := alts.getD (iteration % alts.length) ""
          if alt ≠ base.getD idx "" then base.set idx alt else base

/-- Embeds `MeetingOptimizer._fallback_strategy_selection`. -/
def fallbackStrategySelection (catalog : Catalog) (maxCount : ℕ)
    (history : List IterResult) : List String :=
  fallbackCore catalog maxCount history.length history

/-- Embeds `MeetingOptimizer._apply_improvement_suggestions`.  Here `sugg = none` models
a suggestions dict without `strategy_adjustments` (the code then falls back
to `_fallback_strategy_selection`). -/
def applyImprovementSuggestions (catalog : Catalog) (maxCount : ℕ)
    (sugg : Option Adjustments) (history : List IterResult) : List String :=
  match sugg with
  | none => fallbackStrategySelection catalog maxCount history
  | some adj =>
    let base :=
      match history with
      | [] => baseline3
      | h :: t => (bestResult h t).combo
    let base1 := (adj.removeStrategies.getD []).foldl
      (fun b r => if r ∈ b then b.erase r else b) base
    let base2 := (adj.addStrategies.getD []).foldl
      (addOne catalog maxCount history.length) base1
    normalizeCombo maxCount base2

/-- Embeds `MeetingOptimizer._select_strategy_combination`.  Here `improvements = none`
models every way the improvement path is skipped (no structured
suggestions, an LLM/parsing failure, or an exception — all reach the inline
fallback); `improvements = some sugg` models a dict with
`structured_suggestions = sugg`. -/
def selectStrategyCombination (catalog : Catalog) (maxCount iteration : ℕ)
    (history : List IterResult) (improvements : Option (Option Adjustments)) :
    List String :=
  if iteration = 0 then baseline3
  else
    match history, improvements with
    | _ :: _, some sugg => applyImprovementSuggestions catalog maxCount sugg history
    | _, _ => fallbackCore catalog maxCount iteration history

/-!
## Convergence monitor (`MeetingOptimizer._should_stop_early`)
-/

/-- The configuration fields `_should_stop_early` reads (defaults of
`OptimizationConfig`). -/
structure OptimizationConfig where
  qualityThreshold : ℚ := 4/5
  minImprovement : ℚ := 1/50
  patience : ℕ := 3
  strategyMaxCount : ℕ := 3
  enableEarlyStopping : Bool := true
deriving Repr

/-- The two stop reasons of `_should_stop_early` (the source formats them
as Chinese log strings; only their identity matters). -/
inductive StopReason where
  | noStop
  | threshold
  | noImprovement
deriving DecidableEq, Repr

/-- Python `history[-1].scores.get('overall_score', 0)`. -/
def lastOverall (history : List IterResult) : ℚ :=
  ((history.getLast?).map (·.overall)).getD 0

/-- Python `history[-(patience+1):]` as overall scores. -/
def recentScores (patience : ℕ) (history : List IterResult) : List ℚ :=
  (history.drop (history.length - (patience + 1))).map (·.overall)

/-- Python `all(abs(s[i] - s[i-1]) < minImp for i in 1..)`. -/
def allSmallDiffs (minImp : ℚ) : List ℚ → Bool
  | a :: b :: rest => (|b - a| < minImp) ∧ allSmallDiffs minImp (b :: rest)
  | _ => true

/-- Embeds `MeetingOptimizer._should_stop_early`. -/
def shouldStopEarly (cfg : OptimizationConfig) (history : List IterResult) :
    Bool × StopReason :=
  if ¬ cfg.enableEarlyStopping ∨ history.length < 2 then (false, .noStop)
  else if cfg.qualityThreshold ≤ lastOverall history then (true, .threshold)
  else if cfg.patience + 1 ≤ history.length
      ∧ allSmallDiffs cfg.minImprovement (recentScores cfg.patience history) then
    (true, .noImprovement)
  else (false, .noStop)

/-!
## Improvement feedback parsing
(`MeetingOptimizer._parse_improvement_suggestions`)

The regex `'```json\s*(\{.*?\})\s*```'` (DOTALL) is embedded exactly: the
scan tries each position; at an occurrence of ```` ```json ````, greedy
whitespace must be followed by `{`, and the non-greedy body ends at the
first `}` whose remainder is whitespace and then ```` ``` ````.  `loads`
may fail (`Except.error` = `json.loads` raised); every failure path is
caught and mapped to the empty dict.
-/

/-- Tests that `l` begins with `pre`. -/
def headIs (pre l : List Char) : Bool := l.take pre.length = pre

/-- Index of the closing `}` of the non-greedy `\{.*?\}` group, scanning
for the first `}` followed by `\s*` and ```` ``` ````. -/
def closeScanIdx : List Char → Option ℕ
  | [] => none
  | c :: rest =>
    if c = '}' ∧ headIs "```".data (rest.dropWhile isWS) then some 0
    else (closeScanIdx rest).map (· + 1)

/-- Capture of the fenced group at one candidate start (the characters
after ```` ```json ````): `\s*` then `\{.*?\}`. -/
def fencedBody (after : List Char) : Option (List Char) :=
  match after.dropWhile isWS with
  | '{' :: body => (closeScanIdx body).map (fun q => '{' :: body.take (q + 1))
  | _ => none

/-- The scan of `re.search` for the fenced pattern: leftmost candidate
start wins; a failed candidate advances one character. -/
def fencedScan : List Char → Option (List Char)
  | [] => none
  | c :: rest =>
    if headIs "```json".data (c :: rest) then
      match fencedBody ((c :: rest).drop 7) with
      | some cap => some cap
      | none => fencedScan rest
    else fencedScan rest

/-- The ```` ```json ```` fenced-block extraction of
`_parse_improvement_suggestions`. -/
def fencedExtract (text : String) : Option String :=
  (fencedScan text.data).map (fun l => ⟨l⟩)

/-- Embeds `MeetingOptimizer._parse_improvement_suggestions`, with `json.loads`
allowed to raise (`Except.error`).  The fenced block is preferred; without
one, the span between the first `{` and the last `}` is parsed; every
exception (including the `ValueError` raised when no braces exist) is
caught and turned into the empty dict. -/
def parseImprovementSuggestions (loads : String → Except Unit Json)
    (text : String) : Except Unit Json :=
  match fencedExtract text with
  | some span =>
    match loads span with
    | .ok j => .ok j
    | .error _ => .ok (Json.obj [])
  | none =>
    match jsonExtract text with
    | some span =>
      match loads span with
      | .ok j => .ok j
      | .error _ => .ok (Json.obj [])
    | none => .ok (Json.obj [])

/-!
## Claim formalizations and theorems
-/

/-- The property claim C4 asserts of a short text: a single segment equal to
the input is returned and no judge response is consumed (no AI calls). -/
abbrev claimC4At (loads : String → Option Json) (maxLen overlap : ℕ)
    (text : List Char) (enableAI : Bool) (resps : List String) : Prop :=
  (splitText loads maxLen overlap text enableAI resps).1.map (·.segmentText) = [text]
    ∧ (splitText loads maxLen overlap text enableAI resps).2 = resps

/-- The property claim C5 asserts: whenever the last `patience + 1` scores
form a flat window, the monitor stops with the no-improvement reason. -/
abbrev claimC5At (cfg : OptimizationConfig) (history : List IterResult) : Prop :=
  cfg.patience + 1 ≤ history.length
    ∧ allSmallDiffs cfg.minImprovement (recentScores cfg.patience history) = true
    → shouldStopEarly cfg history = (true, .noImprovement)

/-- The weighted overall quality the spec prescribes for
`evaluate_segments`: weights 0.4 (individual mean, when present), 0.3
(boundary), 0.2 (balance), 0.1 (coverage, when present), normalized by the
total weight, minus the capped issue penalty, clamped to [0, 10]. -/
def specOverallQuality (individual : Option ℚ) (boundary balance : ℚ)
    (coverage : Option ℚ) (issueCount : ℕ) : ℚ :=
  let wsum := individual.elim 0 (fun q => 2/5 * q) + 3/10 * boundary
      + 1/5 * balance + coverage.elim 0 (fun q => 1/10 * q)
  let tw := individual.elim 0 (fun _ => (2:ℚ)/5) + 3/10 + 1/5
      + coverage.elim 0 (fun _ => (1:ℚ)/10)
  min 10 (max 0 (wsum / tw - min 2 ((issueCount : ℚ) * (1/5))))

/-- The concrete failing input for C3: one clean 150-character segment whose
analysis scores `overall_score = 4` (no issues are triggered). -/
def c3Segment : SegmentInfo :=
  { segmentId := 1, segmentText := List.replicate 150 'a',
    analysis := Json.obj
      [ ("overall_score", Json.num 4), ("semantic_completeness", Json.num 8),
        ("topic_consistency", Json.num 8) ],
    startPos := 0, endPos := 150, length := 150, isOptimized := false }

/-- The conflict relation of the catalog is symmetric: whenever `a` lists
`b` in its conflict set, `b` lists `a`. -/
def SymmetricConflicts (catalog : Catalog) : Prop :=
  ∀ a b, a ∈ conflictsOf catalog b → b ∈ conflictsOf catalog a

/-- The invariant claim C2 asserts of a combination: no two members appear
in each other's conflict sets. -/
def MutuallyCompatible (catalog : Catalog) (l : List String) : Prop :=
  l.Pairwise (fun a b => a ∉ conflictsOf catalog b ∧ b ∉ conflictsOf catalog a)

/-- The concrete symmetric catalog of the C2 witness: the role and structure
baseline strategies conflict with each other. -/
def c2WitnessCatalog : Catalog :=
  [ ("A_role_definition_A1", ⟨"角色", ["B_structure_B1"]⟩),
    ("B_structure_B1", ⟨"結構", ["A_role_definition_A1"]⟩),
    ("C_summary_C1", ⟨"內容", []⟩) ]

/-- The concrete catalog of the C2 counterexample: `X_strat` and the
baseline structure strategy conflict mutually. -/
def c2BadCatalog : Catalog :=
  [ ("X_strat", ⟨"", ["B_structure_B1"]⟩),
    ("B_structure_B1", ⟨"結構", ["X_strat"]⟩) ]

/-- The size invariant claim C6 asserts of a returned combination. -/
abbrev claimC6At (maxCount : ℕ) (combo : List String) : Prop :=
  2 ≤ combo.length ∧ combo.length ≤ maxCount

/-- The property claim C1 asserts: when the evaluated segmentation quality
falls below the threshold, the segments used for generation are those of a
deterministic re-run (compared here on their text offsets, which for the
deterministic path do not depend on the judge stream). -/
abbrev claimC1At (loads : String → Option Json) (sqrtQ : ℚ → ℚ)
    (maxLen overlap : ℕ) (qt : ℚ) (text : List Char)
    (resps detResps : List String) : Prop :=
  (processTranscriptCore loads sqrtQ maxLen overlap qt text resps).2 < qt →
    (processTranscriptCore loads sqrtQ maxLen overlap qt text resps).1.map
        (fun s => (s.startPos, s.endPos))
      = (splitText loads maxLen overlap text false detResps).1.map
          (fun s => (s.startPos, s.endPos))

/-- The judge response of the C1/C9 scenarios carrying a low-scoring
coherence analysis. -/
def c1BadAnalysis : String :=
  "\x7b\"overall_score\": 0, \"semantic_completeness\": 0, \"topic_consistency\": 0\x7d"

/-- A boundary-optimization response moving the segment start forward by 50
(relative offsets 250/550 in a ±200 context) with confidence 0.9. -/
def c1AcceptA : String :=
  "\x7b\"optimized_start\": 250, \"optimized_end\": 550, \"confidence\": 0.9\x7d"

/-- A boundary-optimization response with relative offsets 50/350 and
confidence 0.9. -/
def c1AcceptB : String :=
  "\x7b\"optimized_start\": 50, \"optimized_end\": 350, \"confidence\": 0.9\x7d"

/-- The `json.loads` behaviour on the three concrete responses above (each
is genuine JSON; everything else fails to parse). -/
def c1Loads : String → Option Json := fun s =>
  if s = c1BadAnalysis then
    some (Json.obj
      [ ("overall_score", Json.num 0), ("semantic_completeness", Json.num 0),
        ("topic_consistency", Json.num 0) ])
  else if s = c1AcceptA then
    some (Json.obj
      [ ("optimized_start", Json.num 250), ("optimized_end", Json.num 550),
        ("confidence", Json.num (9/10)) ])
  else if s = c1AcceptB then
    some (Json.obj
      [ ("optimized_start", Json.num 50), ("optimized_end", Json.num 350),
        ("confidence", Json.num (9/10)) ])
  else none

/-- The judge stream of the C1 counterexample run: one low-scoring analysis
per segment, with accepted boundary shifts at the three later segments. -/
def c1Resps : List String :=
  [c1BadAnalysis, c1AcceptA, c1BadAnalysis, c1AcceptA, c1BadAnalysis,
    c1AcceptB, c1BadAnalysis]

/-- Invariant of the breakpoint list produced from position `cur`: each
breakpoint strictly advances, stays within `target + 200` of the previous
position, overshoots `target - 500` past it unless it is the final `len`,
and never exceeds `len`; the walk ends at or past `len`. -/
def BpChain (len target : ℕ) : ℕ → List ℕ → Prop
  | cur, [] => len ≤ cur
  | cur, b :: rest =>
    cur < b ∧ (cur + target - 500 < b ∨ b = len) ∧ b ≤ cur + target + 200 ∧
      b ≤ len ∧ BpChain len target b rest

def prevPos : Option ℕ → ℕ
  | none => 0
  | some p => p

/-- A judge response the boundary optimizer rejects for every boundary: the
original positions come back unchanged. -/
def RejectedBy (loads : String → Option Json) (r : String) : Prop :=
  ∀ (len s e : ℕ), optimizeBoundary loads len s e r = (s, e)

/-- The unconsumed part of the judge stream after the boundary-refinement
call of one `split_text` loop iteration (no call on the first segment or in
deterministic mode). -/
def stepResps (enableAI : Bool) (prev : Option ℕ) (resps : List String) :
    List String :=
  if enableAI ∧ prev.isSome then (popResp resps).2 else resps

/-- The metadata of a returned segment apart from its coherence analysis. -/
def segKey (s : SegmentInfo) : ℕ × List Char × ℕ × ℕ × ℕ × Bool :=
  (s.segmentId, s.segmentText, s.startPos, s.endPos, s.length, s.isOptimized)

/-- The character a pattern requires at the start of a match. -/
def patChar : Pat → Char
  | Pat.doubleNewline => '\n'
  | Pat.punctWsNewline c => c
  | Pat.punctWsPlus c => c

/-- Every slice of the breakpoint walk contains a non-whitespace character
(the condition under which no segment of `split_text` is skipped). -/
def SlicesNonWs (text : List Char) (overlap : ℕ) : ℕ → List ℕ → Prop
  | _, [] => True
  | prev, b :: rest =>
    stripL (sliceL text (prev - overlap) b) ≠ [] ∧ SlicesNonWs text overlap b rest

/-- Scenario B of the spec as claimed: 3 to 4 segments, each at most
`4000 + 200` characters, covering every position of the input. -/
abbrev claimC8At (loads : String → Option Json) (text : List Char)
    (resps : List String) : Prop :=
  3 ≤ ((splitText loads 4000 200 text false resps).1).length ∧
  ((splitText loads 4000 200 text false resps).1).length ≤ 4 ∧
  (∀ s ∈ (splitText loads 4000 200 text false resps).1,
      s.segmentText.length ≤ 4200) ∧
  (∀ p : ℕ, p < text.length →
    ∃ s ∈ (splitText loads 4000 200 text false resps).1,
      (contentBounds text s).1 ≤ p ∧ p < (contentBounds text s).2)

/-- A length-12000 text whose `\n\n` separators sit 198 characters past the
4000-character targets and whose tail is whitespace. -/
def c8Text : List Char :=
  List.replicate 4198 'a'
    ++ (List.replicate 2 '\n'
      ++ (List.replicate 4198 'a'
        ++ (List.replicate 2 '\n' ++ List.replicate 3600 ' ')))

/-- A boundary-optimization response moving the segment end to 100
characters past its start (relative offsets 200/300 in a ±200 context)
with confidence 0.9: accepted, it shrinks the segment. -/
def c9Shrink : String :=
  "\x7b\"optimized_start\": 200, \"optimized_end\": 300, \"confidence\": 0.9\x7d"

/-- Python `json.loads` behaviour on the C9 scenario's responses: only the
shrink response parses. -/
def c9Loads : String → Option Json := fun s =>
  if s = c9Shrink then
    some (Json.obj
      [ ("optimized_start", Json.num 200), ("optimized_end", Json.num 300),
        ("confidence", Json.num (9/10)) ])
  else none

/-- Number of positions of the original text lying in some returned
segment's content range (the characters the segment texts reconstruct,
overlaps counted once). -/
def coveredLen (text : List Char) (segs : List SegmentInfo) : ℕ :=
  ((List.range text.length).filter
    (fun p => (segs.map (fun s => contentBounds text s)).any
      (fun r => decide (r.1 ≤ p) && decide (p < r.2)))).length

/-- Claim C9 as stated: for every text exceeding `max_segment_length` and
every judge-response sequence, the returned segments cover at least
0.95 of the text's characters. -/
abbrev claimC9At (loads : String → Option Json) (maxLen overlap : ℕ)
    (text : List Char) (resps : List String) : Prop :=
  maxLen < text.length →
    95 * text.length
      ≤ 100 * coveredLen text (splitText loads maxLen overlap text true resps).1

end MeetingOpt

namespace MeetingOpt

/-- C10: when the judge response contains no parsable JSON object (in
particular when the backend failed and the response is empty),
`_analyze_segment_coherence` returns the fixed default analysis scoring
7.0 everywhere with empty issue and suggestion lists. -/
theorem C10_default_analysis (loads : String → Option Json) (resp : String)
    (h : ∀ span ∈ jsonExtract resp, loads span = none) :
    analyzeSegmentCoherence loads resp =
      Json.obj
        [ ("semantic_completeness", Json.num 7), ("topic_consistency", Json.num 7),
          ("logical_coherence", Json.num 7), ("information_completeness", Json.num 7),
          ("overall_score", Json.num 7), ("issues", Json.arr []),
          ("suggestions", Json.arr []) ] := by
  unfold analyzeSegmentCoherence
  cases hx : jsonExtract resp with
  | none => rfl
  | some span =>
    have hl : loads span = none := h span (by rw [hx]; rfl)
    simp only [hl]
    rfl

/-- Witness for C10 at a concrete failed-judge response. -/
theorem C10_default_analysis_witness :
    jsonExtract "" = none
      ∧ analyzeSegmentCoherence (fun _ => none) "" =
          Json.obj
            [ ("semantic_completeness", Json.num 7), ("topic_consistency", Json.num 7),
              ("logical_coherence", Json.num 7), ("information_completeness", Json.num 7),
              ("overall_score", Json.num 7), ("issues", Json.arr []),
              ("suggestions", Json.arr []) ] := by
  have hx : jsonExtract "" = none := by decide
  refine ⟨hx, C10_default_analysis _ _ ?_⟩
  intro span hs
  simp [hx] at hs

/-- C4 (amended): a text within `max_segment_length` yields exactly one
segment whose text is the whole input (ids and offsets as in the source),
but one judge response is consumed by the coherence analysis — the claimed
"no AI/judge calls" fails. -/
theorem C4_short_text_single_segment (loads : String → Option Json)
    (maxLen overlap : ℕ) (text : List Char) (enableAI : Bool)
    (resps : List String) (h : text.length ≤ maxLen) :
    splitText loads maxLen overlap text enableAI resps =
      ([{ segmentId := 1, segmentText := text,
          analysis := analyzeSegmentCoherence loads (popResp resps).1,
          startPos := 0, endPos := text.length, length := text.length,
          isOptimized := false }], resps.drop 1) := by
  unfold splitText
  rw [if_pos h]
  cases resps <;> rfl

/-- Witness for C4 (amended) at Scenario A shape: a 2-character text under
`max_length = 4000`, one queued judge response, which is consumed. -/
theorem C4_short_text_single_segment_witness :
    "hi".data.length ≤ 4000
      ∧ splitText (fun _ => none) 4000 200 "hi".data true ["r"] =
          ([{ segmentId := 1, segmentText := "hi".data,
              analysis := analyzeSegmentCoherence (fun _ => none) "r",
              startPos := 0, endPos := 2, length := 2,
              isOptimized := false }], []) :=
  ⟨by decide, C4_short_text_single_segment (fun _ => none) 4000 200 "hi".data true ["r"]
    (by decide)⟩

/-- Counterexample for C4 as stated: the single-segment path consumes a
judge response (the coherence-analysis call), so "performs no AI/judge
calls" is false. -/
theorem C4_counterexample :
    ¬ claimC4At (fun _ => none) 4000 200 "hi".data true ["r"] := by
  intro h
  have := h.2
  simp [splitText, popResp] at this

/-- C7: `_parse_improvement_suggestions` never raises — for every input
text and every behaviour of `json.loads` (which may raise) the result is a
returned value — and when no fenced or brace-delimited span parses, the
returned value is the empty dict. -/
theorem C7_parse_never_raises (loads : String → Except Unit Json) (text : String) :
    (∃ j, parseImprovementSuggestions loads text = .ok j)
      ∧ ((∀ s ∈ fencedExtract text, loads s = .error ())
          → (∀ s ∈ jsonExtract text, loads s = .error ())
          → parseImprovementSuggestions loads text = .ok (Json.obj [])) := by
  constructor
  · unfold parseImprovementSuggestions
    cases hf : fencedExtract text with
    | some span => cases hl : loads span <;> simp only [hl] <;> exact ⟨_, rfl⟩
    | none =>
      cases hx : jsonExtract text with
      | some span => cases hl : loads span <;> simp only [hl] <;> exact ⟨_, rfl⟩
      | none => exact ⟨_, rfl⟩
  · intro h1 h2
    unfold parseImprovementSuggestions
    cases hf : fencedExtract text with
    | some span =>
      have hl := h1 span (by rw [hf]; rfl)
      simp only [hl]
    | none =>
      cases hx : jsonExtract text with
      | some span =>
        have hl := h2 span (by rw [hx]; rfl)
        simp only [hl]
      | none => rfl

/-- Witness for C7: plain prose with an always-raising `json.loads`. -/
theorem C7_parse_never_raises_witness :
    (∃ j, parseImprovementSuggestions (fun _ => .error ()) "plain prose" = .ok j)
      ∧ parseImprovementSuggestions (fun _ => .error ()) "plain prose" =
          .ok (Json.obj []) := by
  refine ⟨(C7_parse_never_raises _ _).1,
    (C7_parse_never_raises (fun _ => .error ()) "plain prose").2 ?_ ?_⟩
  · intro s _; rfl
  · intro s _; rfl

/-- C5 (amended): provided early stopping is enabled and the latest overall
score is below the quality threshold (the threshold stop takes precedence),
`_should_stop_early` reports the no-improvement stop exactly when the
history has at least two entries and the last `patience + 1` scores all
differ by less than `min_improvement` — hence at the first round where that
window holds and not earlier. -/
theorem C5_no_improvement_iff (cfg : OptimizationConfig)
    (history : List IterResult) (hEn : cfg.enableEarlyStopping = true)
    (hBelow : lastOverall history < cfg.qualityThreshold) :
    shouldStopEarly cfg history = (true, .noImprovement)
      ↔ 2 ≤ history.length ∧ cfg.patience + 1 ≤ history.length
          ∧ allSmallDiffs cfg.minImprovement (recentScores cfg.patience history) = true := by
  unfold shouldStopEarly
  rw [hEn]
  rcases lt_or_le history.length 2 with hlen | hlen
  · rw [if_pos (by simp [hlen])]
    simp only [Prod.mk.injEq]
    constructor
    · rintro ⟨h, -⟩; cases h
    · rintro ⟨h2, -⟩; omega
  · rw [if_neg (by simp; omega), if_neg (not_le.mpr hBelow)]
    constructor
    · intro h
      by_cases hw : cfg.patience + 1 ≤ history.length
          ∧ allSmallDiffs cfg.minImprovement (recentScores cfg.patience history) = true
      · exact ⟨hlen, hw⟩
      · rw [if_neg (by simpa using hw)] at h
        cases h
    · rintro ⟨-, hw⟩
      rw [if_pos (by simpa using hw)]

unseal Rat.mul Rat.inv Rat.add Rat.sub in
/-- Witness for C5 (amended) at Scenario C: scores 0.60, 0.60, 0.61 with
`patience = 2`, `min_improvement = 0.02` stop with the no-improvement
reason after the third round, and not after the second. -/
theorem C5_no_improvement_iff_witness :
    shouldStopEarly ⟨4/5, 1/50, 2, 3, true⟩
        [⟨[], 3/5⟩, ⟨[], 3/5⟩, ⟨[], 61/100⟩] = (true, .noImprovement)
      ∧ shouldStopEarly ⟨4/5, 1/50, 2, 3, true⟩
          [⟨[], 3/5⟩, ⟨[], 3/5⟩] = (false, .noStop) :=
  ⟨(C5_no_improvement_iff ⟨4/5, 1/50, 2, 3, true⟩
      [⟨[], 3/5⟩, ⟨[], 3/5⟩, ⟨[], 61/100⟩] rfl (by decide)).mpr (by decide),
    by decide⟩

unseal Rat.mul Rat.inv Rat.add Rat.sub in
/-- Counterexample for C5 as stated: a flat window whose latest score also
reaches the quality threshold stops with the threshold reason, not the
no-improvement reason. -/
theorem C5_counterexample :
    ¬ claimC5At ⟨4/5, 1/50, 2, 3, true⟩ [⟨[], 9/10⟩, ⟨[], 9/10⟩, ⟨[], 9/10⟩] := by
  decide

unseal Rat.mul Rat.inv Rat.add Rat.sub in
/-- C3: at the failing input the code returns the plain unweighted mean of
the components `[4, 10, 10]`, namely 8, while the claimed weighted mean
(weights 0.4/0.3/0.2 over individual/boundary/balance) is 22/3 ≈ 7.33 — the
weights dict is built but never applied.  (No judge call is made: a single
segment has no boundaries, and no issues arise.) -/
theorem C3_unweighted_mean_bug :
    (evaluateSegmentsScore (fun _ => none) (fun _ => 0) [c3Segment] false []).1 = 8
      ∧ specOverallQuality (some 4) 10 10 none 0 = 22/3
      ∧ (8 : ℚ) ≠ 22/3 := by
  refine ⟨by decide, ?_, by norm_num⟩
  norm_num [specOverallQuality]

theorem selectCompatibleAux_pairwise (catalog : Catalog)
    (hSym : SymmetricConflicts catalog) (iteration maxCount : ℕ) :
    ∀ (dims : List String) (sel : List String),
      MutuallyCompatible catalog sel →
      MutuallyCompatible catalog (selectCompatibleAux catalog iteration maxCount dims sel) := by
  intro dims
  induction dims with
  | nil => intro sel h; exact h
  | cons dim dims ih =>
    intro sel h
    unfold selectCompatibleAux
    dsimp only
    split
    · exact h
    · split
      · exact ih sel h
      · split
        · exact ih sel h
        · rename_i hNoConf
          refine ih _ ?_
          rw [MutuallyCompatible, List.pairwise_append]
          refine ⟨h, List.pairwise_singleton _ _, ?_⟩
          intro a ha b hb
          rw [List.mem_singleton] at hb
          subst hb
          rw [Bool.not_eq_true, hasConflict, List.any_eq_false] at hNoConf
          have h1 := hNoConf a ha
          simp only [decide_eq_true_eq] at h1
          exact ⟨h1, fun hc => h1 (hSym _ _ hc)⟩

/-- C2 (amended): the round-robin exploration path
(`_select_compatible_strategies`, used for suggestion-free rounds 1–2)
checks each candidate against all previously selected strategies, so under a
symmetric catalog conflict relation its combinations satisfy the mutual
conflict invariant.  (The round-0 baseline, the padding step of the
improvement path, and the fallback single-slot replacement perform no
conflict check — see the counterexample.) -/
theorem C2_explore_conflict_free (catalog : Catalog) (iteration maxCount : ℕ)
    (hSym : SymmetricConflicts catalog) :
    MutuallyCompatible catalog
      ((selectCompatibleStrategies catalog iteration maxCount).take maxCount) := by
  have h := selectCompatibleAux_pairwise catalog hSym iteration maxCount dimKeys []
    (List.Pairwise.nil)
  exact List.Pairwise.sublist (List.take_sublist _ _) h

theorem c2WitnessCatalog_symm : SymmetricConflicts c2WitnessCatalog := by
  intro a b hab
  by_cases h1 : b = "A_role_definition_A1"
  · subst h1
    have : a = "B_structure_B1" := by
      have hc : conflictsOf c2WitnessCatalog "A_role_definition_A1"
          = ["B_structure_B1"] := by rfl
      rw [hc] at hab
      simpa using hab
    subst this; decide
  · by_cases h2 : b = "B_structure_B1"
    · subst h2
      have : a = "A_role_definition_A1" := by
        have hc : conflictsOf c2WitnessCatalog "B_structure_B1"
            = ["A_role_definition_A1"] := by rfl
        rw [hc] at hab
        simpa using hab
      subst this; decide
    · exfalso
      have hc : conflictsOf c2WitnessCatalog b = [] := by
        simp only [conflictsOf, c2WitnessCatalog, List.find?]
        rw [decide_eq_false (by simpa [eq_comm] using h1),
          decide_eq_false (by simpa [eq_comm] using h2)]
        by_cases h3 : b = "C_summary_C1"
        · subst h3; rfl
        · rw [decide_eq_false (by simpa [eq_comm] using h3)]
          rfl
      rw [hc] at hab
      cases hab

/-- Witness for C2 (amended): the exploration path on a concrete symmetric
catalog with a role/structure conflict. -/
theorem C2_explore_conflict_free_witness :
    MutuallyCompatible c2WitnessCatalog
      ((selectCompatibleStrategies c2WitnessCatalog 0 3).take 3) :=
  C2_explore_conflict_free c2WitnessCatalog 0 3 c2WitnessCatalog_symm

/-- Counterexample for C2 as stated: on the improvement-suggestion path,
the padding step adds baseline strategies without any conflict check — a
single-member base combination is padded to
`[X_strat, A_role_definition_A1, B_structure_B1]`, and `X_strat` and
`B_structure_B1` are in each other's conflict sets. -/
theorem C2_counterexample :
    ¬ MutuallyCompatible c2BadCatalog
      (applyImprovementSuggestions c2BadCatalog 3 (some ⟨some [], some []⟩)
        [⟨["X_strat"], 1⟩]) := by
  intro h
  rw [show applyImprovementSuggestions c2BadCatalog 3 (some ⟨some [], some []⟩)
      [⟨["X_strat"], 1⟩]
    = ["X_strat", "A_role_definition_A1", "B_structure_B1"] from rfl] at h
  rcases h with _ | ⟨hx, -⟩
  exact (hx "B_structure_B1" (by simp)).1 (by decide)

theorem normalizeCombo_le (maxCount : ℕ) (base : List String) :
    (normalizeCombo maxCount base).length ≤ maxCount := by
  unfold normalizeCombo
  split
  · rename_i h
    rw [List.length_take]
    omega
  · rename_i h
    push_neg at h
    split
    · have step : ∀ (b : List String) (s : String), b.length ≤ maxCount →
          (if s ∉ b ∧ b.length < maxCount then b ++ [s] else b).length ≤ maxCount := by
        intro b s hb
        split
        · rename_i hc
          simp
          omega
        · exact hb
      simp only [List.foldl, baseline3]
      exact step _ _ (step _ _ (step _ _ h))
    · exact h

theorem padFold_ge2 (maxCount : ℕ) (base : List String) (h2 : 2 ≤ maxCount)
    (hlen : base.length < 2) :
    2 ≤ (baseline3.foldl
      (fun b s => if s ∉ b ∧ b.length < maxCount then b ++ [s] else b) base).length := by
  have mono : ∀ (b : List String) (s : String),
      b.length ≤ (if s ∉ b ∧ b.length < maxCount then b ++ [s] else b).length := by
    intro b s
    split <;> simp
  simp only [baseline3, List.foldl]
  by_cases hA : "A_role_definition_A1" ∈ base
  · have hb1 : base.length = 1 := by
      have := List.length_pos.mpr (List.ne_nil_of_mem hA)
      omega
    obtain ⟨x, hx⟩ := List.length_eq_one.mp hb1
    have hxA : x = "A_role_definition_A1" := by
      rw [hx] at hA
      simp only [List.mem_singleton] at hA
      exact hA.symm
    subst hxA
    rw [hx]
    have hm : (1:ℕ) < maxCount := by omega
    rw [show (if ("A_role_definition_A1" : String) ∉ ["A_role_definition_A1"]
          ∧ (["A_role_definition_A1"] : List String).length < maxCount
        then ["A_role_definition_A1"] ++ ["A_role_definition_A1"]
        else ["A_role_definition_A1"]) = ["A_role_definition_A1"] from if_neg (by simp)]
    rw [show (if ("B_structure_B1" : String) ∉ ["A_role_definition_A1"]
          ∧ (["A_role_definition_A1"] : List String).length < maxCount
        then ["A_role_definition_A1"] ++ ["B_structure_B1"]
        else ["A_role_definition_A1"]) = ["A_role_definition_A1"] ++ ["B_structure_B1"]
      from if_pos ⟨by decide, by simpa using hm⟩]
    calc (2:ℕ) = (["A_role_definition_A1"] ++ ["B_structure_B1"]).length := by simp
      _ ≤ _ := mono _ _
  · have e1 : (if "A_role_definition_A1" ∉ base ∧ base.length < maxCount
        then base ++ ["A_role_definition_A1"] else base)
        = base ++ ["A_role_definition_A1"] := if_pos ⟨hA, by omega⟩
    rw [e1]
    by_cases hB : "B_structure_B1" ∈ base ++ ["A_role_definition_A1"]
    · have hBb : "B_structure_B1" ∈ base := by
        rcases List.mem_append.mp hB with h | h
        · exact h
        · exact absurd (List.mem_singleton.mp h) (by decide)
      have hb1 : 2 ≤ (base ++ ["A_role_definition_A1"]).length := by
        have := List.length_pos.mpr (List.ne_nil_of_mem hBb)
        simp
        omega
      calc (2:ℕ) ≤ _ := hb1
        _ ≤ _ := le_trans (mono _ _) (mono _ _)
    · by_cases hcap : (base ++ ["A_role_definition_A1"]).length < maxCount
      · have e2 : (if "B_structure_B1" ∉ base ++ ["A_role_definition_A1"]
            ∧ (base ++ ["A_role_definition_A1"]).length < maxCount
          then (base ++ ["A_role_definition_A1"]) ++ ["B_structure_B1"]
          else base ++ ["A_role_definition_A1"])
          = (base ++ ["A_role_definition_A1"]) ++ ["B_structure_B1"] :=
          if_pos ⟨hB, hcap⟩
        rw [e2]
        have h22 : 2 ≤ ((base ++ ["A_role_definition_A1"]) ++ ["B_structure_B1"]).length := by
          simp
        calc (2:ℕ) ≤ _ := h22
          _ ≤ _ := mono _ _
      · have hlen1 : 2 ≤ (base ++ ["A_role_definition_A1"]).length := by
          simp only [List.length_append, List.length_cons, List.length_nil] at hcap ⊢
          omega
        calc (2:ℕ) ≤ _ := hlen1
          _ ≤ _ := le_trans (mono _ _) (mono _ _)

theorem normalizeCombo_ge2 (maxCount : ℕ) (base : List String)
    (h2 : 2 ≤ maxCount) : 2 ≤ (normalizeCombo maxCount base).length := by
  unfold normalizeCombo
  split
  · rename_i h
    simp
    omega
  · rename_i h
    push_neg at h
    split
    · rename_i hlt
      exact padFold_ge2 maxCount base h2 hlt
    · omega

theorem selectCompatibleAux_len (catalog : Catalog) (iteration maxCount : ℕ) :
    ∀ (dims : List String) (sel : List String), sel.length ≤ maxCount →
      (selectCompatibleAux catalog iteration maxCount dims sel).length ≤ maxCount := by
  intro dims
  induction dims with
  | nil => intro sel h; exact h
  | cons dim dims ih =>
    intro sel h
    unfold selectCompatibleAux
    dsimp only
    split
    · exact h
    · rename_i hfull
      push_neg at hfull
      split
      · exact ih sel h
      · split
        · exact ih sel h
        · refine ih _ ?_
          simp
          omega

/-- C6 (amended): round 0 always returns the fixed 3-strategy baseline
(regardless of `strategy_max_count`); the improvement-suggestion path with
`strategy_max_count ≥ 2` returns between 2 and `strategy_max_count`
strategies for every catalog, adjustment and history; and the exploration
path never exceeds `strategy_max_count` (though it can return fewer than 2
— see the counterexample). -/
theorem C6_combination_sizes (catalog : Catalog) (maxCount : ℕ)
    (adj : Adjustments) (history : List IterResult) (iteration : ℕ)
    (improvements : Option (Option Adjustments)) (h2 : 2 ≤ maxCount) :
    selectStrategyCombination catalog maxCount 0 history improvements = baseline3
      ∧ 2 ≤ (applyImprovementSuggestions catalog maxCount (some adj) history).length
      ∧ (applyImprovementSuggestions catalog maxCount (some adj) history).length ≤ maxCount
      ∧ (selectCompatibleStrategies catalog iteration maxCount).length ≤ maxCount := by
  refine ⟨rfl, ?_, ?_, ?_⟩
  · unfold applyImprovementSuggestions
    exact normalizeCombo_ge2 _ _ h2
  · unfold applyImprovementSuggestions
    exact normalizeCombo_le _ _
  · exact selectCompatibleAux_len catalog iteration maxCount dimKeys [] (by simp)

/-- Witness for C6 (amended) at a concrete input: empty catalog, empty
history, empty adjustment object, `strategy_max_count = 3`. -/
theorem C6_combination_sizes_witness :
    selectStrategyCombination [] 3 0 [] none = baseline3
      ∧ 2 ≤ (applyImprovementSuggestions [] 3 (some ⟨some [], some []⟩) []).length
      ∧ (applyImprovementSuggestions [] 3 (some ⟨some [], some []⟩) []).length ≤ 3
      ∧ (selectCompatibleStrategies [] 0 3).length ≤ 3 :=
  C6_combination_sizes [] 3 ⟨some [], some []⟩ [] 0 none (by norm_num)

/-- Counterexample for C6 as stated: with `strategy_max_count = 2` the
round-0 path returns 3 strategies (exceeding the bound), and with an empty
catalog and empty history the fallback path returns 0 strategies (below
the bound). -/
theorem C6_counterexample :
    ¬ claimC6At 2 (selectStrategyCombination [] 2 0 [] none)
      ∧ ¬ claimC6At 3 (fallbackStrategySelection [] 3 []) := by
  decide

/-- C1 (amended): `process_transcript` uses the AI-assisted segments for
generation unchanged, whatever the quality score — the below-threshold
branch only logs a warning and never re-runs segmentation. -/
theorem C1_quality_gate_never_reruns (loads : String → Option Json)
    (sqrtQ : ℚ → ℚ) (maxLen overlap : ℕ) (qt : ℚ) (text : List Char)
    (resps : List String) :
    (processTranscriptCore loads sqrtQ maxLen overlap qt text resps).1
      = (splitText loads maxLen overlap text true resps).1 := by
  unfold processTranscriptCore
  simp

set_option maxRecDepth 40000 in
unseal Rat.mul Rat.inv Rat.add Rat.sub in
/-- Counterexample for C1 as stated: a 1000-character transcript processed
with `max_segment_length = 300`, `overlap = 50`, `quality_threshold = 6`.
The quality score evaluates to 93/20 < 6 (all segment analyses score 0 and
eight issues arise), yet the segments used are the AI-shifted ones
(offsets (0,300), (300,600), (600,900), (700,1000)), not the
deterministic ones ((0,300), (250,600), (550,900), (850,1000)): no
fallback re-run happens. -/
theorem C1_counterexample :
    ¬ claimC1At c1Loads (fun _ => 0) 300 50 6 (List.replicate 1000 'a')
      c1Resps [] := by
  decide

/-!
## Segmentation lemmas (claims C8 and C9)
-/

theorem sliceL_length (text : List Char) (a b : ℕ) :
    (sliceL text a b).length = min (b - a) (text.length - a) := by
  simp [sliceL]

theorem sliceL_get? (text : List Char) (a b i : ℕ) (h : i < b - a) :
    (sliceL text a b).get? i = text.get? (a + i) := by
  rw [sliceL, List.get?_take h, List.get?_drop]

theorem stripL_length_le (l : List Char) : (stripL l).length ≤ l.length := by
  have h1 : (dropLeadWS l).length ≤ l.length := by
    simpa [dropLeadWS] using List.Sublist.length_le (List.dropWhile_sublist isWS)
  have h2 : (dropTrailWS (dropLeadWS l)).length ≤ (dropLeadWS l).length := by
    simpa [dropTrailWS] using
      List.Sublist.length_le (List.dropWhile_sublist (l := (dropLeadWS l).reverse) isWS)
  exact le_trans h2 h1

theorem stripL_eq_nil_iff (l : List Char) :
    stripL l = [] ↔ ∀ c ∈ l, isWS c = true := by
  constructor
  · intro h c hc
    rw [stripL, dropTrailWS] at h
    have h1 : (dropLeadWS l).reverse.dropWhile isWS = [] := by
      have := congrArg List.reverse h
      simpa using this
    have h2 : ∀ c ∈ dropLeadWS l, isWS c = true := by
      intro c hc
      exact List.dropWhile_eq_nil_iff.mp h1 c (List.mem_reverse.mpr hc)
    have hsplit := List.takeWhile_append_dropWhile (p := isWS) (l := l)
    rcases List.mem_append.mp (by rw [hsplit]; exact hc) with hm | hm
    · exact List.mem_takeWhile_imp hm
    · exact h2 c hm
  · intro h
    have h1 : dropLeadWS l = [] :=
      List.dropWhile_eq_nil_iff.mpr (fun c hc => h c hc)
    rw [stripL, h1, dropTrailWS]
    rfl

theorem takeWhile_len_le_of_get (l : List Char) (i : ℕ) (c : Char)
    (h : l.get? i = some c) (hc : isWS c = false) :
    (l.takeWhile isWS).length ≤ i := by
  induction l generalizing i with
  | nil => simp at h
  | cons a as ih =>
    cases i with
    | zero =>
      rw [List.get?_cons_zero] at h
      injection h with h
      subst h
      rw [List.takeWhile_cons, hc]
      simp
    | succ i =>
      rw [List.get?_cons_succ] at h
      rw [List.takeWhile_cons]
      cases hws : isWS a
      · simp
      · simpa using Nat.succ_le_succ (ih i h)

theorem lastNLinRun_bounds (l : List Char) : ∀ k : ℕ,
    lastNLinRun l = some k → 1 ≤ k ∧ k ≤ l.length := by
  induction l with
  | nil => intro k h; simp [lastNLinRun] at h
  | cons c rest ih =>
    intro k h
    rw [lastNLinRun] at h
    cases hws : isWS c with
    | false => rw [hws] at h; simp at h
    | true =>
      rw [hws] at h
      cases hr : lastNLinRun rest with
      | some m =>
        rw [hr] at h
        simp at h
        obtain ⟨h1, h2⟩ := ih m hr
        simp only [List.length_cons]
        omega
      | none =>
        rw [hr] at h
        by_cases hc : c = '\n'
        · rw [if_pos hc] at h
          simp at h
          simp only [List.length_cons]
          omega
        · rw [if_neg hc] at h
          cases h

theorem tryMatch_bounds (p : Pat) (l : List Char) (k : ℕ)
    (h : tryMatch p l = some k) : 1 ≤ k ∧ k ≤ l.length := by
  cases p with
  | doubleNewline =>
    match l, h with
    | c1 :: c2 :: rest, h =>
      rw [tryMatch] at h
      split at h
      · simp at h
        simp only [List.length_cons]
        omega
      · cases h
  | punctWsNewline c =>
    match l, h with
    | d :: rest, h =>
      rw [tryMatch] at h
      split at h
      · cases hr : lastNLinRun rest with
        | some m =>
          rw [hr] at h
          simp at h
          obtain ⟨h1, h2⟩ := lastNLinRun_bounds rest m hr
          simp only [List.length_cons]
          omega
        | none => rw [hr] at h; cases h
      · cases h
  | punctWsPlus c =>
    match l, h with
    | d :: rest, h =>
      rw [tryMatch] at h
      split at h
      · split at h
        · cases h
        · simp at h
          have hle : wsRunLen rest ≤ rest.length :=
            List.Sublist.length_le (List.takeWhile_sublist isWS)
          simp only [List.length_cons]
          omega
      · cases h

theorem finditerEnds_mem_bounds (p : Pat) : ∀ (fuel : ℕ) (l : List Char)
    (pos e : ℕ), e ∈ finditerEnds p fuel l pos → pos + 1 ≤ e ∧ e ≤ pos + l.length := by
  intro fuel
  induction fuel with
  | zero => intro l pos e h; simp [finditerEnds] at h
  | succ f ih =>
    intro l pos e h
    cases l with
    | nil => simp [finditerEnds] at h
    | cons c rest =>
      rw [finditerEnds] at h
      cases hm : tryMatch p (c :: rest) with
      | some k =>
        rw [hm] at h
        obtain ⟨hk1, hk2⟩ := tryMatch_bounds p (c :: rest) k hm
        simp only [List.length_cons] at hk2
        rcases List.mem_cons.mp h with he | he
        · subst he
          simp only [List.length_cons]
          omega
        · obtain ⟨h1, h2⟩ := ih _ _ _ he
          rw [List.length_drop] at h2
          simp only [List.length_cons]
          omega
      | none =>
        rw [hm] at h
        obtain ⟨h1, h2⟩ := ih _ _ _ h
        simp only [List.length_cons]
        omega

theorem firstPatternEnds_mem (window : List Char) (ends : List ℕ)
    (h : firstPatternEnds window = some ends) (e : ℕ) (he : e ∈ ends) :
    1 ≤ e ∧ e ≤ window.length := by
  rw [firstPatternEnds] at h
  obtain ⟨p, hp, hpe⟩ := List.mem_map.mp (List.mem_of_find?_eq_some h)
  obtain ⟨h1, h2⟩ := finditerEnds_mem_bounds p _ _ _ e (hpe ▸ he)
  omega

theorem bestBreakpoint_bounds (text : List Char) (target cur : ℕ)
    (hlt : cur + target < text.length) (ht : 1 ≤ target) :
    cur < bestBreakpoint text target cur (cur + target) ∧
    (cur + target - 500 < bestBreakpoint text target cur (cur + target) ∨
      bestBreakpoint text target cur (cur + target) = cur + target) ∧
    bestBreakpoint text target cur (cur + target) ≤ cur + target + 200 ∧
    bestBreakpoint text target cur (cur + target) ≤ text.length := by
  unfold bestBreakpoint
  cases hf : firstPatternEnds (sliceL text (max (cur + target - 500) cur)
      (cur + target + 200)) with
  | none =>
    simp only [hf]
    omega
  | some ends =>
    simp only [hf]
    cases hfind : ends.reverse.find? (fun e =>
        decide (cur + 500 < max (cur + target - 500) cur + e)) with
    | none =>
      simp only [hfind]
      omega
    | some e =>
      simp only [hfind]
      have hmem : e ∈ ends := List.mem_reverse.mp (List.mem_of_find?_eq_some hfind)
      obtain ⟨he1, he2⟩ := firstPatternEnds_mem _ _ hf e hmem
      rw [sliceL_length] at he2
      constructor
      · have := List.find?_some hfind
        simp at this
        omega
      · omega

theorem bpChain_nil (len target cur : ℕ) : BpChain len target cur [] ↔ len ≤ cur :=
  Iff.rfl

theorem bpChain_cons (len target cur b : ℕ) (rest : List ℕ) :
    BpChain len target cur (b :: rest) ↔
      cur < b ∧ (cur + target - 500 < b ∨ b = len) ∧ b ≤ cur + target + 200 ∧
        b ≤ len ∧ BpChain len target b rest :=
  Iff.rfl

theorem breakpointsLoop_chain (text : List Char) (len target : ℕ)
    (hlen : len = text.length) (ht : 1 ≤ target) :
    ∀ (fuel cur : ℕ), len ≤ cur + fuel →
      BpChain len target cur (breakpointsLoop text len target fuel cur) := by
  intro fuel
  induction fuel with
  | zero =>
    intro cur h
    rw [breakpointsLoop, bpChain_nil]
    omega
  | succ f ih =>
    intro cur h
    rw [breakpointsLoop]
    by_cases h1 : cur < len
    · rw [if_pos h1]
      by_cases h2 : len ≤ cur + target
      · rw [if_pos h2, bpChain_cons]
        exact ⟨h1, Or.inr rfl, by omega, le_refl _, (bpChain_nil _ _ _).mpr (le_refl _)⟩
      · rw [if_neg h2]
        obtain ⟨hb1, hb2, hb3, hb4⟩ :=
          bestBreakpoint_bounds text target cur (by omega) ht
        rw [bpChain_cons]
        refine ⟨hb1, ?_, hb3, by omega, ih _ (by omega)⟩
        rcases hb2 with hb2 | hb2
        · exact Or.inl hb2
        · exact Or.inl (by omega)
    · rw [if_neg h1, bpChain_nil]
      omega

theorem bpChain_length_le (len target : ℕ) (bps : List ℕ)
    (hl : len = 12000) (ht : target = 4000) (h : BpChain len target 0 bps) :
    bps.length ≤ 4 := by
  subst hl ht
  rcases bps with _ | ⟨b1, _ | ⟨b2, _ | ⟨b3, _ | ⟨b4, rest⟩⟩⟩⟩
  · simp
  · simp
  · simp
  · simp
  · rw [bpChain_cons] at h
    obtain ⟨h1, hd1, hu1, hl1, h⟩ := h
    rw [bpChain_cons] at h
    obtain ⟨h2, hd2, hu2, hl2, h⟩ := h
    rw [bpChain_cons] at h
    obtain ⟨h3, hd3, hu3, hl3, h⟩ := h
    rw [bpChain_cons] at h
    obtain ⟨h4, hd4, hu4, hl4, h⟩ := h
    cases rest with
    | nil => simp
    | cons b5 rest2 =>
      rw [bpChain_cons] at h
      obtain ⟨h5, hd5, hu5, hl5, _⟩ := h
      exfalso
      rcases hd1 with hd1 | hd1 <;> rcases hd2 with hd2 | hd2 <;>
        rcases hd3 with hd3 | hd3 <;> rcases hd4 with hd4 | hd4 <;> omega

theorem breakpointsLoop_step (text : List Char) (len target fuel cur : ℕ)
    (hf : 0 < fuel) (h1 : cur < len) (h2 : ¬ len ≤ cur + target) :
    breakpointsLoop text len target fuel cur
      = bestBreakpoint text target cur (cur + target)
        :: breakpointsLoop text len target (fuel - 1)
             (bestBreakpoint text target cur (cur + target)) := by
  obtain ⟨f, rfl⟩ : ∃ f, fuel = f + 1 := ⟨fuel - 1, by omega⟩
  rw [breakpointsLoop, if_pos h1, if_neg h2]
  simp

theorem breakpointsLoop_last (text : List Char) (len target fuel cur : ℕ)
    (hf : 0 < fuel) (h1 : cur < len) (h2 : len ≤ cur + target) :
    breakpointsLoop text len target fuel cur = [len] := by
  obtain ⟨f, rfl⟩ : ∃ f, fuel = f + 1 := ⟨fuel - 1, by omega⟩
  rw [breakpointsLoop, if_pos h1, if_pos h2]

theorem optimizeBoundary_empty (loads : String → Option Json) (len s e : ℕ) :
    optimizeBoundary loads len s e "" = (s, e) := by
  rfl

theorem popResp_fst_cases (resps : List String) :
    (popResp resps).1 = "" ∨ (popResp resps).1 ∈ resps := by
  cases resps with
  | nil => exact Or.inl rfl
  | cons r rs => exact Or.inr (List.mem_cons_self r rs)

theorem popResp_snd_subset (resps : List String) :
    ∀ r ∈ (popResp resps).2, r ∈ resps := by
  cases resps with
  | nil => intro r h; cases h
  | cons x rs => exact fun r h => List.mem_cons_of_mem x h

theorem stepResps_subset (enableAI : Bool) (prev : Option ℕ)
    (resps : List String) : ∀ r ∈ stepResps enableAI prev resps, r ∈ resps := by
  rw [stepResps]
  by_cases h : (enableAI = true) ∧ (prev.isSome = true)
  · rw [if_pos h]; exact popResp_snd_subset resps
  · rw [if_neg h]; exact fun r hr => hr

set_option maxHeartbeats 1000000 in
theorem segmentsLoop_cons_rejected (loads : String → Option Json)
    (text : List Char) (len overlap : ℕ) (enableAI : Bool) (bp : ℕ)
    (rest : List ℕ) (prev : Option ℕ) (resps : List String) (count : ℕ)
    (hrej : enableAI = true → prev.isSome = true →
      optimizeBoundary loads len (prevPos prev - overlap) bp (popResp resps).1
        = (prevPos prev - overlap, bp)) :
    segmentsLoop loads text len overlap enableAI (bp :: rest) prev resps count
      = if stripL (sliceL text (prevPos prev - overlap) bp) = [] then
          segmentsLoop loads text len overlap enableAI rest (some bp)
            (stepResps enableAI prev resps) count
        else
          ({ segmentId := count + 1,
             segmentText := stripL (sliceL text (prevPos prev - overlap) bp),
             analysis := analyzeSegmentCoherence loads
               (popResp (stepResps enableAI prev resps)).1,
             startPos := prevPos prev - overlap, endPos := bp,
             length := (stripL (sliceL text (prevPos prev - overlap) bp)).length,
             isOptimized := false }
            :: (segmentsLoop loads text len overlap enableAI rest (some bp)
                  (popResp (stepResps enableAI prev resps)).2 (count + 1)).1,
           (segmentsLoop loads text len overlap enableAI rest (some bp)
              (popResp (stepResps enableAI prev resps)).2 (count + 1)).2) := by
  conv_lhs => rw [segmentsLoop.eq_def]
  by_cases hAI : (enableAI = true) ∧ (prev.isSome = true)
  · obtain ⟨hA, hP⟩ := hAI
    obtain ⟨q, rfl⟩ : ∃ q, prev = some q := by
      cases prev with
      | none => simp at hP
      | some q => exact ⟨q, rfl⟩
    subst hA
    have hoe := hrej rfl rfl
    simp only [prevPos] at hoe ⊢
    rw [stepResps]
    simp only [Option.isSome_some, and_self, if_pos, hoe]
    simp
  · rw [stepResps, if_neg hAI]
    have hcond : ¬ ((enableAI = true) ∧ ((prev.isSome : Prop))) := by
      simpa using hAI
    simp only [if_neg hcond]
    cases prev with
    | none => simp [prevPos]
    | some q => simp [prevPos]

theorem lt_sub_revTakeWhile_of_get (l : List Char) (i : ℕ) (c : Char)
    (h : l.get? i = some c) (hc : isWS c = false) :
    i < l.length - (l.reverse.takeWhile isWS).length := by
  have hi : i < l.length := by
    by_contra hge
    rw [List.get?_eq_none.mpr (Nat.not_lt.mp hge)] at h
    cases h
  have hrev : l.reverse.get? (l.length - 1 - i) = some c := by
    rw [List.get?_eq_getElem?, List.getElem?_reverse' (l.length - 1 - i) i (by omega),
      ← List.get?_eq_getElem?]
    exact h
  have hle := takeWhile_len_le_of_get l.reverse (l.length - 1 - i) c hrev hc
  omega

theorem segmentsLoop_nil (loads : String → Option Json) (text : List Char)
    (len overlap : ℕ) (enableAI : Bool) (prev : Option ℕ) (resps : List String)
    (count : ℕ) :
    segmentsLoop loads text len overlap enableAI [] prev resps count
      = ([], resps) := rfl

theorem rejected_step (loads : String → Option Json) (resps : List String)
    (h : ∀ r ∈ resps, RejectedBy loads r) (len s e : ℕ) :
    optimizeBoundary loads len s e (popResp resps).1 = (s, e) := by
  rcases popResp_fst_cases resps with h0 | hm
  · rw [h0]; exact optimizeBoundary_empty loads len s e
  · exact h _ hm len s e

theorem segmentsLoop_count_le (loads : String → Option Json) (text : List Char)
    (len overlap : ℕ) (enableAI : Bool) :
    ∀ (bps : List ℕ) (prev : Option ℕ) (resps : List String) (count : ℕ),
      (enableAI = true → ∀ r ∈ resps, RejectedBy loads r) →
      ((segmentsLoop loads text len overlap enableAI bps prev resps count).1).length
        ≤ bps.length := by
  intro bps
  induction bps with
  | nil => intro prev resps count _; rw [segmentsLoop_nil]; simp
  | cons bp rest ih =>
    intro prev resps count hres
    have hrej : enableAI = true → prev.isSome = true →
        optimizeBoundary loads len (prevPos prev - overlap) bp (popResp resps).1
          = (prevPos prev - overlap, bp) :=
      fun hA _ => rejected_step loads resps (hres hA) len _ bp
    rw [segmentsLoop_cons_rejected loads text len overlap enableAI bp rest prev
      resps count hrej]
    by_cases hnil : stripL (sliceL text (prevPos prev - overlap) bp) = []
    · rw [if_pos hnil]
      exact le_trans
        (ih (some bp) _ count
          (fun hA r hr => hres hA r (stepResps_subset _ _ _ r hr)))
        (by simp)
    · rw [if_neg hnil]
      simp only [List.length_cons]
      exact Nat.succ_le_succ
        (ih (some bp) _ (count + 1)
          (fun hA r hr => hres hA r
            (stepResps_subset _ _ _ r (popResp_snd_subset _ r hr))))

theorem segmentsLoop_text_le (loads : String → Option Json) (text : List Char)
    (len overlap target : ℕ) (enableAI : Bool) :
    ∀ (bps : List ℕ) (prev : Option ℕ) (resps : List String) (count : ℕ),
      BpChain len target (prevPos prev) bps →
      (enableAI = true → ∀ r ∈ resps, RejectedBy loads r) →
      ∀ s ∈ (segmentsLoop loads text len overlap enableAI bps prev resps count).1,
        s.segmentText.length ≤ target + 200 + overlap := by
  intro bps
  induction bps with
  | nil => intro prev resps count _ _ s hs; rw [segmentsLoop_nil] at hs; cases hs
  | cons bp rest ih =>
    intro prev resps count hchain hres s hs
    rw [bpChain_cons] at hchain
    obtain ⟨h1, h2, h3, h4, hchain'⟩ := hchain
    have hchain'' : BpChain len target (prevPos (some bp)) rest := by
      simpa [prevPos] using hchain'
    have hrej : enableAI = true → prev.isSome = true →
        optimizeBoundary loads len (prevPos prev - overlap) bp (popResp resps).1
          = (prevPos prev - overlap, bp) :=
      fun hA _ => rejected_step loads resps (hres hA) len _ bp
    rw [segmentsLoop_cons_rejected loads text len overlap enableAI bp rest prev
      resps count hrej] at hs
    by_cases hnil : stripL (sliceL text (prevPos prev - overlap) bp) = []
    · rw [if_pos hnil] at hs
      exact ih (some bp) _ count hchain''
        (fun hA r hr => hres hA r (stepResps_subset _ _ _ r hr)) s hs
    · rw [if_neg hnil] at hs
      rcases List.mem_cons.mp hs with hhead | htail
      · subst hhead
        simp only
        have hl1 := stripL_length_le (sliceL text (prevPos prev - overlap) bp)
        have hl2 := sliceL_length text (prevPos prev - overlap) bp
        omega
      · exact ih (some bp) _ (count + 1) hchain''
          (fun hA r hr => hres hA r
            (stepResps_subset _ _ _ r (popResp_snd_subset _ r hr))) s htail

theorem segmentsLoop_coverage (loads : String → Option Json) (text : List Char)
    (len overlap target : ℕ) (enableAI : Bool) (hlen : len = text.length) :
    ∀ (bps : List ℕ) (prev : Option ℕ) (resps : List String) (count : ℕ),
      BpChain len target (prevPos prev) bps →
      (enableAI = true → ∀ r ∈ resps, RejectedBy loads r) →
      ∀ (p : ℕ) (c : Char), prevPos prev ≤ p → p < len →
        text.get? p = some c → isWS c = false →
        ∃ s ∈ (segmentsLoop loads text len overlap enableAI bps prev resps count).1,
          (contentBounds text s).1 ≤ p ∧ p < (contentBounds text s).2 := by
  subst hlen
  intro bps
  induction bps with
  | nil =>
    intro prev resps count hchain _ p c hp hplen _ _
    rw [bpChain_nil] at hchain
    omega
  | cons bp rest ih =>
    intro prev resps count hchain hres p c hp hplen hget hws
    rw [bpChain_cons] at hchain
    obtain ⟨h1, h2, h3, h4, hchain'⟩ := hchain
    have hchain'' : BpChain text.length target (prevPos (some bp)) rest := by
      simpa [prevPos] using hchain'
    have hrej : enableAI = true → prev.isSome = true →
        optimizeBoundary loads text.length (prevPos prev - overlap) bp
          (popResp resps).1 = (prevPos prev - overlap, bp) :=
      fun hA _ => rejected_step loads resps (hres hA) text.length _ bp
    rw [segmentsLoop_cons_rejected loads text text.length overlap enableAI bp rest
      prev resps count hrej]
    by_cases hple : bp ≤ p
    · by_cases hnil : stripL (sliceL text (prevPos prev - overlap) bp) = []
      · rw [if_pos hnil]
        exact ih (some bp) _ count hchain''
          (fun hA r hr => hres hA r (stepResps_subset _ _ _ r hr))
          p c (by simpa [prevPos] using hple) hplen hget hws
      · rw [if_neg hnil]
        obtain ⟨s, hs, hcov⟩ := ih (some bp) _ (count + 1) hchain''
          (fun hA r hr => hres hA r
            (stepResps_subset _ _ _ r (popResp_snd_subset _ r hr)))
          p c (by simpa [prevPos] using hple) hplen hget hws
        exact ⟨s, List.mem_cons_of_mem _ hs, hcov⟩
    · push_neg at hple
      have hs0 : prevPos prev - overlap ≤ p := le_trans (Nat.sub_le _ _) hp
      have hi : p - (prevPos prev - overlap) < bp - (prevPos prev - overlap) := by
        omega
      have hget' : (sliceL text (prevPos prev - overlap) bp).get?
          (p - (prevPos prev - overlap)) = some c := by
        rw [sliceL_get? text _ bp _ hi,
          show prevPos prev - overlap + (p - (prevPos prev - overlap)) = p from by
            omega]
        exact hget
      have hnil : ¬ stripL (sliceL text (prevPos prev - overlap) bp) = [] := by
        intro hn
        have := (stripL_eq_nil_iff _).mp hn c (List.get?_mem hget')
        rw [hws] at this
        cases this
      rw [if_neg hnil]
      refine ⟨_, List.mem_cons_self _ _, ?_, ?_⟩
      · have hlead := takeWhile_len_le_of_get _ _ c hget' hws
        simp only [contentBounds]
        omega
      · have hslen : (sliceL text (prevPos prev - overlap) bp).length
            = bp - (prevPos prev - overlap) := by
          rw [sliceL_length]
          omega
        have htrail := lt_sub_revTakeWhile_of_get _ _ c hget' hws
        rw [hslen] at htrail
        simp only [contentBounds]
        omega

theorem segmentsLoop_rejected_key_eq (loads loads' : String → Option Json)
    (text : List Char) (len overlap : ℕ) :
    ∀ (bps : List ℕ) (prev : Option ℕ) (resps resps' : List String) (count : ℕ),
      (∀ r ∈ resps, RejectedBy loads r) →
      ((segmentsLoop loads text len overlap true bps prev resps count).1).map segKey
        = ((segmentsLoop loads' text len overlap false bps prev resps' count).1).map
            segKey := by
  intro bps
  induction bps with
  | nil => intro prev resps resps' count _; rw [segmentsLoop_nil, segmentsLoop_nil]
  | cons bp rest ih =>
    intro prev resps resps' count hres
    have hrej : (true : Bool) = true → prev.isSome = true →
        optimizeBoundary loads len (prevPos prev - overlap) bp (popResp resps).1
          = (prevPos prev - overlap, bp) :=
      fun _ _ => rejected_step loads resps hres len _ bp
    have hrej' : (false : Bool) = true → prev.isSome = true →
        optimizeBoundary loads' len (prevPos prev - overlap) bp (popResp resps').1
          = (prevPos prev - overlap, bp) := by
      intro h; cases h
    rw [segmentsLoop_cons_rejected loads text len overlap true bp rest prev
      resps count hrej,
      segmentsLoop_cons_rejected loads' text len overlap false bp rest prev
      resps' count hrej']
    by_cases hnil : stripL (sliceL text (prevPos prev - overlap) bp) = []
    · rw [if_pos hnil, if_pos hnil]
      exact ih (some bp) _ _ count
        (fun r hr => hres r (stepResps_subset _ _ _ r hr))
    · rw [if_neg hnil, if_neg hnil]
      rw [List.map_cons, List.map_cons]
      congr 1
      exact ih (some bp) _ _ (count + 1)
        (fun r hr => hres r (stepResps_subset _ _ _ r (popResp_snd_subset _ r hr)))

theorem tryMatch_none_of_head_ne (p : Pat) (a : Char) (rest : List Char)
    (h : a ≠ patChar p) : tryMatch p (a :: rest) = none := by
  cases p with
  | doubleNewline =>
    cases rest with
    | nil => rfl
    | cons c2 r2 =>
      rw [tryMatch]
      exact if_neg (fun hand => h hand.1)
  | punctWsNewline c =>
    rw [tryMatch]
    exact if_neg (fun hd => h hd)
  | punctWsPlus c =>
    rw [tryMatch]
    exact if_neg (fun hd => h hd)

theorem finditerEnds_nil (p : Pat) (fuel pos : ℕ) :
    finditerEnds p fuel [] pos = [] := by
  cases fuel <;> rfl

theorem finditerEnds_skip (p : Pat) (a : Char) (h : a ≠ patChar p) :
    ∀ (n fuel : ℕ) (rest : List Char) (pos : ℕ), n ≤ fuel →
      finditerEnds p fuel (List.replicate n a ++ rest) pos
        = finditerEnds p (fuel - n) rest (pos + n) := by
  intro n
  induction n with
  | zero => intro fuel rest pos _; simp
  | succ m ih =>
    intro fuel rest pos hle
    obtain ⟨f, rfl⟩ : ∃ f, fuel = f + 1 := ⟨fuel - 1, by omega⟩
    rw [List.replicate_succ, List.cons_append, finditerEnds,
      tryMatch_none_of_head_ne p a _ h]
    show finditerEnds p f (List.replicate m a ++ rest) (pos + 1) = _
    rw [ih f rest (pos + 1) (by omega),
      show f + 1 - (m + 1) = f - m from by omega,
      show pos + (m + 1) = pos + 1 + m from by omega]

theorem firstPatternEnds_replicate (a : Char) (ha1 : a ≠ '\n') (ha2 : a ≠ '。')
    (ha3 : a ≠ '！') (ha4 : a ≠ '？') (ha5 : a ≠ '，') (n : ℕ) :
    firstPatternEnds (List.replicate n a) = none := by
  have key : ∀ p : Pat, a ≠ patChar p →
      finditerEnds p (List.replicate n a).length (List.replicate n a) 0 = [] := by
    intro p hp
    have h1 := finditerEnds_skip p a hp n (List.replicate n a).length [] 0
      (by rw [List.length_replicate])
    rw [List.append_nil] at h1
    rw [h1, finditerEnds_nil]
  rw [firstPatternEnds, splitterPatterns]
  simp only [List.map_cons, List.map_nil]
  rw [key Pat.doubleNewline ha1, key (Pat.punctWsNewline '。') ha2,
    key (Pat.punctWsPlus '。') ha2, key (Pat.punctWsNewline '！') ha3,
    key (Pat.punctWsNewline '？') ha4, key (Pat.punctWsNewline '，') ha5]
  rfl

theorem dropWhile_replicate_append (p : Char → Bool) (w : Char) (hw : p w = true) :
    ∀ (n : ℕ) (rest : List Char),
      List.dropWhile p (List.replicate n w ++ rest) = List.dropWhile p rest := by
  intro n
  induction n with
  | zero => intro rest; simp
  | succ m ih =>
    intro rest
    rw [List.replicate_succ, List.cons_append, List.dropWhile_cons]
    simp only [hw, if_true]
    exact ih rest

theorem dropWhile_replicate_of_neg (p : Char → Bool) (a : Char)
    (ha : p a = false) (n : ℕ) (hn : 0 < n) :
    List.dropWhile p (List.replicate n a) = List.replicate n a := by
  obtain ⟨m, rfl⟩ : ∃ m, n = m + 1 := ⟨n - 1, by omega⟩
  rw [List.replicate_succ, List.dropWhile_cons]
  simp [ha]

theorem dropWhile_replicate_append_of_neg (p : Char → Bool) (a : Char)
    (ha : p a = false) (n : ℕ) (hn : 0 < n) (rest : List Char) :
    List.dropWhile p (List.replicate n a ++ rest)
      = List.replicate n a ++ rest := by
  obtain ⟨m, rfl⟩ : ∃ m, n = m + 1 := ⟨n - 1, by omega⟩
  rw [List.replicate_succ, List.cons_append, List.dropWhile_cons]
  simp [ha]

theorem stripL_rep_then_ws (a w : Char) (m n : ℕ) (ha : isWS a = false)
    (hw : isWS w = true) (hm : 0 < m) :
    stripL (List.replicate m a ++ List.replicate n w) = List.replicate m a := by
  rw [stripL, dropLeadWS, dropWhile_replicate_append_of_neg isWS a ha m hm,
    dropTrailWS, List.reverse_append, List.reverse_replicate,
    List.reverse_replicate, dropWhile_replicate_append isWS w hw n,
    dropWhile_replicate_of_neg isWS a ha m hm, List.reverse_replicate]

theorem stripL_rep_then_ws2 (a w1 w2 : Char) (m j n : ℕ) (ha : isWS a = false)
    (hw1 : isWS w1 = true) (hw2 : isWS w2 = true) (hm : 0 < m) :
    stripL (List.replicate m a ++ (List.replicate j w1 ++ List.replicate n w2))
      = List.replicate m a := by
  rw [stripL, dropLeadWS, dropWhile_replicate_append_of_neg isWS a ha m hm,
    dropTrailWS, List.reverse_append, List.reverse_append,
    List.reverse_replicate, List.reverse_replicate, List.reverse_replicate,
    List.append_assoc, dropWhile_replicate_append isWS w2 hw2 n,
    dropWhile_replicate_append isWS w1 hw1 j,
    dropWhile_replicate_of_neg isWS a ha m hm, List.reverse_replicate]

theorem stripL_ws_then_rep (w a : Char) (n m : ℕ) (hw : isWS w = true)
    (ha : isWS a = false) (hm : 0 < m) :
    stripL (List.replicate n w ++ List.replicate m a) = List.replicate m a := by
  rw [stripL, dropLeadWS, dropWhile_replicate_append isWS w hw n,
    dropWhile_replicate_of_neg isWS a ha m hm, dropTrailWS,
    List.reverse_replicate, dropWhile_replicate_of_neg isWS a ha m hm,
    List.reverse_replicate]

theorem stripL_block2 (m k : ℕ) (hm : 0 < m) (hk : 0 < k) :
    stripL (List.replicate m 'a'
        ++ (List.replicate 2 '\n' ++ (List.replicate k 'a' ++ List.replicate 2 '\n')))
      = List.replicate m 'a' ++ (List.replicate 2 '\n' ++ List.replicate k 'a') := by
  have ha : isWS 'a' = false := by decide
  have hw : isWS '\n' = true := by decide
  rw [stripL, dropLeadWS, dropWhile_replicate_append_of_neg isWS 'a' ha m hm,
    dropTrailWS, List.reverse_append, List.reverse_append, List.reverse_append,
    List.reverse_replicate, List.reverse_replicate, List.reverse_replicate,
    List.append_assoc, List.append_assoc,
    dropWhile_replicate_append isWS '\n' hw 2,
    dropWhile_replicate_append_of_neg isWS 'a' ha k hk,
    List.reverse_append, List.reverse_append, List.reverse_replicate,
    List.reverse_replicate, List.reverse_replicate, List.append_assoc]

theorem drop_append_small {α : Type} (l1 l2 : List α) (j : ℕ)
    (h : j ≤ l1.length) : (l1 ++ l2).drop j = l1.drop j ++ l2 := by
  rw [List.drop_append_eq_append_drop, show j - l1.length = 0 from by omega,
    List.drop_zero]

theorem drop_append_big {α : Type} (l1 l2 : List α) (j : ℕ)
    (h : l1.length ≤ j) : (l1 ++ l2).drop j = l2.drop (j - l1.length) := by
  rw [List.drop_append_eq_append_drop, List.drop_eq_nil_of_le h, List.nil_append]

theorem take_append_small {α : Type} (l1 l2 : List α) (j : ℕ)
    (h : j ≤ l1.length) : (l1 ++ l2).take j = l1.take j := by
  rw [List.take_append_eq_append_take, show j - l1.length = 0 from by omega,
    List.take_zero, List.append_nil]

theorem take_append_big {α : Type} (l1 l2 : List α) (j : ℕ)
    (h : l1.length ≤ j) : (l1 ++ l2).take j = l1 ++ l2.take (j - l1.length) := by
  rw [List.take_append_eq_append_take, List.take_all_of_le h]

theorem segmentsLoop_count_eq (loads : String → Option Json) (text : List Char)
    (len overlap : ℕ) (enableAI : Bool) :
    ∀ (bps : List ℕ) (prev : Option ℕ) (resps : List String) (count : ℕ),
      (enableAI = true → ∀ r ∈ resps, RejectedBy loads r) →
      SlicesNonWs text overlap (prevPos prev) bps →
      ((segmentsLoop loads text len overlap enableAI bps prev resps count).1).length
        = bps.length := by
  intro bps
  induction bps with
  | nil => intro prev resps count _ _; rw [segmentsLoop_nil]; rfl
  | cons bp rest ih =>
    intro prev resps count hres hnws
    obtain ⟨hnn, hnws'⟩ := hnws
    have hrej : enableAI = true → prev.isSome = true →
        optimizeBoundary loads len (prevPos prev - overlap) bp (popResp resps).1
          = (prevPos prev - overlap, bp) :=
      fun hA _ => rejected_step loads resps (hres hA) len _ bp
    rw [segmentsLoop_cons_rejected loads text len overlap enableAI bp rest prev
      resps count hrej, if_neg hnn]
    simp only [List.length_cons]
    rw [ih (some bp) _ (count + 1)
      (fun hA r hr => hres hA r
        (stepResps_subset _ _ _ r (popResp_snd_subset _ r hr)))
      (by simpa [prevPos] using hnws')]

theorem bpChain_length_ge3 (len target : ℕ) (bps : List ℕ)
    (hl : len = 12000) (ht : target = 4000) (h : BpChain len target 0 bps) :
    3 ≤ bps.length := by
  subst hl ht
  rcases bps with _ | ⟨b1, _ | ⟨b2, _ | ⟨b3, rest⟩⟩⟩
  · rw [bpChain_nil] at h
    omega
  · rw [bpChain_cons, bpChain_nil] at h
    omega
  · rw [bpChain_cons, bpChain_cons, bpChain_nil] at h
    omega
  · simp only [List.length_cons]
    omega

/-- Claim C8, amended: for every text of length 12000 segmented with
`max_length = 4000` and `overlap = 200` in deterministic mode, `split_text`
returns at most 4 segments — and at least 3 when no slice of the
breakpoint walk is whitespace-only (a whitespace-only slice is silently
skipped, which can drop the count below 3 and leave a gap) — every
returned segment's text has at most 4400 characters (the slice spans up to
`overlap` characters before the previous breakpoint and up to 200
characters past `current + max_length`, so the stated bound 4200 fails),
and every non-whitespace character of the input lies inside some returned
segment's content range. -/
theorem C8_det_segmentation (loads : String → Option Json) (resps : List String)
    (text : List Char) (hlen : text.length = 12000) :
    ((splitText loads 4000 200 text false resps).1).length ≤ 4 ∧
    (SlicesNonWs text 200 0 (findNaturalBreakpoints text 4000) →
      3 ≤ ((splitText loads 4000 200 text false resps).1).length) ∧
    (∀ s ∈ (splitText loads 4000 200 text false resps).1,
        s.segmentText.length ≤ 4400) ∧
    (∀ (p : ℕ) (c : Char), text.get? p = some c → isWS c = false →
      ∃ s ∈ (splitText loads 4000 200 text false resps).1,
        (contentBounds text s).1 ≤ p ∧ p < (contentBounds text s).2) := by
  have hsplit : splitText loads 4000 200 text false resps
      = segmentsLoop loads text text.length 200 false
          (findNaturalBreakpoints text 4000) none resps 0 := by
    simp only [splitText]
    rw [if_neg (show ¬ text.length ≤ 4000 by omega)]
  have hchain : BpChain text.length 4000 0 (findNaturalBreakpoints text 4000) :=
    breakpointsLoop_chain text text.length 4000 rfl (by norm_num)
      (text.length + 1) 0 (by omega)
  refine ⟨?_, ?_, ?_, ?_⟩
  · rw [hsplit]
    exact le_trans
      (segmentsLoop_count_le loads text text.length 200 false _ none resps 0
        (by intro h; cases h))
      (bpChain_length_le text.length 4000 _ hlen rfl hchain)
  · intro hnws
    rw [hsplit]
    rw [segmentsLoop_count_eq loads text text.length 200 false _ none resps 0
      (by intro h; cases h) hnws]
    exact bpChain_length_ge3 text.length 4000 _ hlen rfl hchain
  · intro s hs
    rw [hsplit] at hs
    have := segmentsLoop_text_le loads text text.length 200 4000 false _ none
      resps 0 hchain (by intro h; cases h) s hs
    omega
  · intro p c hget hws
    have hp : p < text.length := (List.get?_eq_some.mp hget).1
    rw [hsplit]
    exact segmentsLoop_coverage loads text text.length 200 4000 false rfl _ none
      resps 0 hchain (by intro h; cases h) p c (by simp [prevPos]) hp hget hws

/-- Tests that `C8_det_segmentation` applies at a concrete length-12000 text. -/
theorem C8_det_segmentation_witness :
    (List.replicate 12000 'a').length = 12000 ∧
    (((splitText (fun _ => none) 4000 200 (List.replicate 12000 'a') false
        []).1).length ≤ 4 ∧
     (SlicesNonWs (List.replicate 12000 'a') 200 0
        (findNaturalBreakpoints (List.replicate 12000 'a') 4000) →
       3 ≤ ((splitText (fun _ => none) 4000 200 (List.replicate 12000 'a') false
          []).1).length) ∧
     (∀ s ∈ (splitText (fun _ => none) 4000 200 (List.replicate 12000 'a') false
        []).1, s.segmentText.length ≤ 4400) ∧
     (∀ (p : ℕ) (c : Char),
        (List.replicate 12000 'a').get? p = some c → isWS c = false →
        ∃ s ∈ (splitText (fun _ => none) 4000 200 (List.replicate 12000 'a')
            false []).1,
          (contentBounds (List.replicate 12000 'a') s).1 ≤ p ∧
            p < (contentBounds (List.replicate 12000 'a') s).2)) :=
  ⟨List.length_replicate 12000 'a',
   C8_det_segmentation (fun _ => none) [] (List.replicate 12000 'a')
     (List.length_replicate 12000 'a')⟩

theorem c8Text_length : c8Text.length = 12000 := by
  simp only [c8Text, List.length_append, List.length_replicate]

theorem c8_window_ends :
    firstPatternEnds (List.replicate 698 'a' ++ List.replicate 2 '\n')
      = some [700] := by
  rw [firstPatternEnds, splitterPatterns]
  simp only [List.map_cons, List.map_nil]
  have hlen : (List.replicate 698 'a' ++ List.replicate 2 '\n').length = 700 := by
    rw [List.length_append, List.length_replicate, List.length_replicate]
  rw [hlen,
    finditerEnds_skip Pat.doubleNewline 'a' (by decide) 698 700
      (List.replicate 2 '\n') 0 (by norm_num),
    show (700 : ℕ) - 698 = 2 from by norm_num,
    show (0 : ℕ) + 698 = 698 from by norm_num,
    show finditerEnds Pat.doubleNewline 2 (List.replicate 2 '\n') 698 = [700]
      from by decide,
    List.find?_cons_of_pos _ (by decide)]

theorem c8_slice_w1 :
    sliceL c8Text 3500 4200 = List.replicate 698 'a' ++ List.replicate 2 '\n' := by
  rw [sliceL, c8Text, show (4200 : ℕ) - 3500 = 700 from by norm_num,
    drop_append_small _ _ 3500 (by rw [List.length_replicate]; norm_num),
    List.drop_replicate, show (4198 : ℕ) - 3500 = 698 from by norm_num,
    take_append_big _ _ 700 (by rw [List.length_replicate]; norm_num),
    List.length_replicate, show (700 : ℕ) - 698 = 2 from by norm_num,
    take_append_small _ _ 2 (by rw [List.length_replicate]),
    List.take_replicate, show min 2 2 = 2 from by norm_num]

theorem c8_slice_w2 :
    sliceL c8Text 7700 8400 = List.replicate 698 'a' ++ List.replicate 2 '\n' := by
  rw [sliceL, c8Text, show (8400 : ℕ) - 7700 = 700 from by norm_num,
    drop_append_big _ _ 7700 (by rw [List.length_replicate]; norm_num),
    List.length_replicate, show (7700 : ℕ) - 4198 = 3502 from by norm_num,
    drop_append_big _ _ 3502 (by rw [List.length_replicate]; norm_num),
    List.length_replicate, show (3502 : ℕ) - 2 = 3500 from by norm_num,
    drop_append_small _ _ 3500 (by rw [List.length_replicate]; norm_num),
    List.drop_replicate, show (4198 : ℕ) - 3500 = 698 from by norm_num,
    take_append_big _ _ 700 (by rw [List.length_replicate]; norm_num),
    List.length_replicate, show (700 : ℕ) - 698 = 2 from by norm_num,
    take_append_small _ _ 2 (by rw [List.length_replicate]),
    List.take_replicate, show min 2 2 = 2 from by norm_num]

theorem c8_best1 : bestBreakpoint c8Text 4000 0 4000 = 4200 := by
  unfold bestBreakpoint
  rw [show max (0 + 4000 - 500) 0 = 3500 from by norm_num,
    show (4000 : ℕ) + 200 = 4200 from by norm_num]
  dsimp only
  rw [c8_slice_w1, c8_window_ends]
  dsimp only
  rw [List.reverse_singleton, List.find?_cons_of_pos _ (by decide)]

theorem c8_best2 : bestBreakpoint c8Text 4000 4200 8200 = 8400 := by
  unfold bestBreakpoint
  rw [show max (4200 + 4000 - 500) 4200 = 7700 from by norm_num,
    show (8200 : ℕ) + 200 = 8400 from by norm_num]
  dsimp only
  rw [c8_slice_w2, c8_window_ends]
  dsimp only
  rw [List.reverse_singleton, List.find?_cons_of_pos _ (by decide)]

theorem c8_bps : findNaturalBreakpoints c8Text 4000 = [4200, 8400, 12000] := by
  simp only [findNaturalBreakpoints]
  rw [c8Text_length,
    breakpointsLoop_step c8Text 12000 4000 (12000 + 1) 0 (by norm_num)
      (by norm_num) (by norm_num),
    show (0 : ℕ) + 4000 = 4000 from by norm_num, c8_best1,
    show (12000 : ℕ) + 1 - 1 = 12000 from by norm_num,
    breakpointsLoop_step c8Text 12000 4000 12000 4200 (by norm_num)
      (by norm_num) (by norm_num),
    show (4200 : ℕ) + 4000 = 8200 from by norm_num, c8_best2,
    show (12000 : ℕ) - 1 = 11999 from by norm_num,
    breakpointsLoop_last c8Text 12000 4000 11999 8400 (by norm_num)
      (by norm_num) (by norm_num)]

theorem c8_strip1 :
    stripL (sliceL c8Text 0 4200) = List.replicate 4198 'a' := by
  have hsl : sliceL c8Text 0 4200
      = List.replicate 4198 'a' ++ List.replicate 2 '\n' := by
    rw [sliceL, c8Text, List.drop_zero, show (4200 : ℕ) - 0 = 4200 from by norm_num,
      take_append_big _ _ 4200 (by rw [List.length_replicate]; norm_num),
      List.length_replicate, show (4200 : ℕ) - 4198 = 2 from by norm_num,
      take_append_small _ _ 2 (by rw [List.length_replicate]),
      List.take_replicate, show min 2 2 = 2 from by norm_num]
  rw [hsl, stripL_rep_then_ws 'a' '\n' 4198 2 (by decide) (by decide) (by norm_num)]

theorem c8_strip2 :
    stripL (sliceL c8Text 4000 8400)
      = List.replicate 198 'a'
        ++ (List.replicate 2 '\n' ++ List.replicate 4198 'a') := by
  have hsl : sliceL c8Text 4000 8400
      = List.replicate 198 'a'
        ++ (List.replicate 2 '\n'
          ++ (List.replicate 4198 'a' ++ List.replicate 2 '\n')) := by
    rw [sliceL, c8Text, show (8400 : ℕ) - 4000 = 4400 from by norm_num,
      drop_append_small _ _ 4000 (by rw [List.length_replicate]; norm_num),
      List.drop_replicate, show (4198 : ℕ) - 4000 = 198 from by norm_num,
      take_append_big _ _ 4400 (by rw [List.length_replicate]; norm_num),
      List.length_replicate, show (4400 : ℕ) - 198 = 4202 from by norm_num,
      take_append_big _ _ 4202 (by rw [List.length_replicate]; norm_num),
      List.length_replicate, show (4202 : ℕ) - 2 = 4200 from by norm_num,
      take_append_big _ _ 4200 (by rw [List.length_replicate]; norm_num),
      List.length_replicate, show (4200 : ℕ) - 4198 = 2 from by norm_num,
      take_append_small _ _ 2 (by rw [List.length_replicate]),
      List.take_replicate, show min 2 2 = 2 from by norm_num]
  rw [hsl, stripL_block2 198 4198 (by norm_num) (by norm_num)]

theorem c8_strip3 :
    stripL (sliceL c8Text 8200 12000) = List.replicate 198 'a' := by
  have hsl : sliceL c8Text 8200 12000
      = List.replicate 198 'a'
        ++ (List.replicate 2 '\n' ++ List.replicate 3600 ' ') := by
    rw [sliceL, c8Text, show (12000 : ℕ) - 8200 = 3800 from by norm_num,
      drop_append_big _ _ 8200 (by rw [List.length_replicate]; norm_num),
      List.length_replicate, show (8200 : ℕ) - 4198 = 4002 from by norm_num,
      drop_append_big _ _ 4002 (by rw [List.length_replicate]; norm_num),
      List.length_replicate, show (4002 : ℕ) - 2 = 4000 from by norm_num,
      drop_append_small _ _ 4000 (by rw [List.length_replicate]; norm_num),
      List.drop_replicate, show (4198 : ℕ) - 4000 = 198 from by norm_num,
      take_append_big _ _ 3800 (by rw [List.length_replicate]; norm_num),
      List.length_replicate, show (3800 : ℕ) - 198 = 3602 from by norm_num,
      take_append_big _ _ 3602 (by rw [List.length_replicate]; norm_num),
      List.length_replicate, show (3602 : ℕ) - 2 = 3600 from by norm_num,
      List.take_replicate, show min 3600 3600 = 3600 from by norm_num]
  rw [hsl, stripL_rep_then_ws2 'a' '\n' ' ' 198 2 3600 (by decide) (by decide)
    (by decide) (by norm_num)]

theorem c8_segment_lengths :
    ((splitText (fun _ => none) 4000 200 c8Text false []).1).map
      (fun s => s.segmentText.length) = [4198, 4398, 198] := by
  simp only [splitText]
  rw [c8Text_length, if_neg (by norm_num), c8_bps,
    segmentsLoop_cons_rejected _ _ _ _ false _ _ _ _ _ (fun h => nomatch h),
    show prevPos none - 200 = 0 from by simp [prevPos], c8_strip1,
    if_neg (by decide), List.map_cons,
    segmentsLoop_cons_rejected _ _ _ _ false _ _ _ _ _ (fun h => nomatch h),
    show prevPos (some 4200) - 200 = 4000 from by simp [prevPos], c8_strip2,
    if_neg (by decide), List.map_cons,
    segmentsLoop_cons_rejected _ _ _ _ false _ _ _ _ _ (fun h => nomatch h),
    show prevPos (some 8400) - 200 = 8200 from by simp [prevPos], c8_strip3,
    if_neg (by decide), List.map_cons, segmentsLoop_nil, List.map_nil]
  simp only [List.length_append, List.length_replicate]

/-- Claim C8 as stated is false: for the length-12000 text `c8Text`,
deterministic segmentation returns a segment of 4398 characters, above the
claimed bound of 4000 + 200 (the chosen breakpoints are 4200, 8400 and
12000, and the second slice starts at `8400 - overlap ... `4000`, stripping
only its two trailing newlines). -/
theorem C8_counterexample : ¬ claimC8At (fun _ => none) c8Text [] := by
  intro h
  obtain ⟨_, _, hlen4200, _⟩ := h
  have hm : ∀ x ∈ ((splitText (fun _ => none) 4000 200 c8Text false []).1).map
      (fun s => s.segmentText.length), x ≤ 4200 := by
    intro x hx
    obtain ⟨s, hs, rfl⟩ := List.mem_map.mp hx
    exact hlen4200 s hs
  rw [c8_segment_lengths] at hm
  have := hm 4398 (by simp)
  omega

set_option maxRecDepth 40000 in
unseal Rat.mul Rat.inv Rat.add Rat.sub in
/-- Counterexample for C9 as stated: a 1000-character transcript split with
`max_segment_length = 300`, `overlap = 50`, where the judge's accepted
shrink response moves the second segment's boundaries from (250, 600) to
(250, 350).  The four segments then cover positions 0..349 and 550..999
only — 800 of 1000 characters, below the claimed 0.95 — so boundary
refinement does remove text from coverage. -/
theorem C9_counterexample :
    ¬ claimC9At c9Loads 300 50 (List.replicate 1000 'a') ["", c9Shrink] := by
  intro h
  have h2 := h (by rw [List.length_replicate]; norm_num)
  have hranges : ((splitText c9Loads 300 50 (List.replicate 1000 'a') true
        ["", c9Shrink]).1).map
        (fun s => contentBounds (List.replicate 1000 'a') s)
      = [(0, 300), (250, 350), (550, 900), (850, 1000)] := by
    decide
  unfold coveredLen at h2
  rw [hranges, List.length_replicate] at h2
  have hc : ((List.range 1000).filter
      (fun p => ([(0, 300), (250, 350), (550, 900), (850, 1000)]
          : List (ℕ × ℕ)).any
        (fun r => decide (r.1 ≤ p) && decide (p < r.2)))).length = 800 := by
    decide
  rw [hc] at h2
  omega

/-- Claim C9, amended: when every judge response during AI boundary
refinement is rejected by `_optimize_segment_boundary` (no parsable JSON
object, missing fields, or confidence at most 0.7 — including the empty
response of a failed call), refinement changes nothing: the returned
segments carry the same ids, texts, positions, lengths and optimization
flags as deterministic segmentation, and every non-whitespace character of
the input lies in some returned segment's content range.  An accepted
response, by contrast, can shift one boundary pair and remove text from
coverage, dropping it below 0.95 of the input. -/
theorem C9_rejected_refinement (loads loads' : String → Option Json)
    (maxLen overlap : ℕ) (text : List Char) (resps resps' : List String)
    (hpos : 0 < maxLen) (hgt : maxLen < text.length)
    (hrej : ∀ r ∈ resps, RejectedBy loads r) :
    ((splitText loads maxLen overlap text true resps).1).map segKey
      = ((splitText loads' maxLen overlap text false resps').1).map segKey ∧
    (∀ (p : ℕ) (c : Char), text.get? p = some c → isWS c = false →
      ∃ s ∈ (splitText loads maxLen overlap text true resps).1,
        (contentBounds text s).1 ≤ p ∧ p < (contentBounds text s).2) := by
  have hsplit : ∀ (L : String → Option Json) (b : Bool) (rs : List String),
      splitText L maxLen overlap text b rs
        = segmentsLoop L text text.length overlap b
            (findNaturalBreakpoints text maxLen) none rs 0 := by
    intro L b rs
    simp only [splitText]
    rw [if_neg (by omega)]
  have hchain : BpChain text.length maxLen 0 (findNaturalBreakpoints text maxLen) :=
    breakpointsLoop_chain text text.length maxLen rfl hpos (text.length + 1) 0
      (by omega)
  constructor
  · rw [hsplit loads true resps, hsplit loads' false resps']
    exact segmentsLoop_rejected_key_eq loads loads' text text.length overlap _
      none resps resps' 0 hrej
  · intro p c hget hws
    have hp : p < text.length := (List.get?_eq_some.mp hget).1
    rw [hsplit loads true resps]
    exact segmentsLoop_coverage loads text text.length overlap maxLen true rfl _
      none resps 0 hchain (fun _ => hrej) p c (by simp [prevPos]) hp hget hws

/-- Tests that `C9_rejected_refinement` applies at a concrete instance. -/
theorem C9_rejected_refinement_witness :
    (0 < 1 ∧ 1 < (['a', 'b'] : List Char).length) ∧
    ((((splitText (fun _ => none) 1 0 ['a', 'b'] true []).1).map segKey
        = ((splitText (fun _ => none) 1 0 ['a', 'b'] false []).1).map segKey) ∧
     (∀ (p : ℕ) (c : Char), (['a', 'b'] : List Char).get? p = some c →
        isWS c = false →
        ∃ s ∈ (splitText (fun _ => none) 1 0 ['a', 'b'] true []).1,
          (contentBounds ['a', 'b'] s).1 ≤ p ∧
            p < (contentBounds ['a', 'b'] s).2)) :=
  ⟨⟨by norm_num, by decide⟩,
   C9_rejected_refinement (fun _ => none) (fun _ => none) 1 0 ['a', 'b'] [] []
     (by norm_num) (by decide) (fun r hr => absurd hr (List.not_mem_nil r))⟩

end MeetingOpt
